import Mathlib

set_option maxRecDepth 200000

/-!
Shallow embedding of the shred wire codec (`ledger/src/shred.rs`) and the
duplicate-slot broadcast stage
(`core/src/broadcast_stage/broadcast_duplicates_run.rs`).

Machine integers are modelled as `Nat` with explicit `% 2^w` where overflow
matters; byte buffers are `List Nat` whose entries stand for `u8` values;
fallible operations return `Except` or `Option`.
-/

/-- Little-endian byte encoding of `n` into exactly `w` bytes
(mirrors how bincode lays out fixed-width little-endian integers). -/
def leBytes : Nat → Nat → List Nat
  | 0, _ => []
  | w + 1, n => n % 256 :: leBytes w (n / 256)

/-- Little-endian byte decoding (inverse of `leBytes` modulo `256 ^ w`). -/
def leVal : List Nat → Nat
  | [] => 0
  | b :: bs => b + 256 * leVal bs

theorem leBytes_length (w n : Nat) : (leBytes w n).length = w := by
  induction w generalizing n with
  | zero => rfl
  | succ w ih => simp [leBytes, ih]

theorem leVal_leBytes (w n : Nat) : leVal (leBytes w n) = n % 256 ^ w := by
  induction w generalizing n with
  | zero => simp [leBytes, leVal, Nat.mod_one]
  | succ w ih =>
      simp only [leBytes, leVal, ih]
      rw [pow_succ', Nat.mod_mul]

/-- Wire value of the data variant tag (`ShredType::Data = 0b1010_0101`). -/
def DATA_VARIANT_BYTE : Nat := 0xa5

/-- Wire value of the coding variant tag (`ShredType::Code = 0b0101_1010`). -/
def CODE_VARIANT_BYTE : Nat := 0x5a

/-- `ShredType` from `ledger/src/shred.rs`. -/
inductive ShredType where
  | Data
  | Code
deriving DecidableEq

/-- `ShredVariant` from `ledger/src/shred.rs` (legacy family only). -/
inductive ShredVariant where
  | LegacyCode
  | LegacyData
deriving DecidableEq

/-- `impl From<ShredVariant> for ShredType`. -/
def ShredVariant.toShredType : ShredVariant → ShredType
  | .LegacyCode => .Code
  | .LegacyData => .Data

/-- `impl From<ShredVariant> for u8`. -/
def ShredVariant.toByte : ShredVariant → Nat
  | .LegacyCode => CODE_VARIANT_BYTE
  | .LegacyData => DATA_VARIANT_BYTE

/-- `u8::from(shred_type)` for the `ShredType` enum. -/
def ShredType.toByte : ShredType → Nat
  | .Data => DATA_VARIANT_BYTE
  | .Code => CODE_VARIANT_BYTE

/-- The `Error` enum of `ledger/src/shred.rs`; payload-free where the payload
does not matter for the verified properties. `bincodeError` stands for the
transparent `BincodeError` passthrough variant. -/
inductive ShredError where
  | bincodeError
  | invalidDataShredIndex (index : Nat)
  | invalidDataSize (size : Nat) (payload : Nat)
  | invalidErasureShardIndex
  | invalidNumCodingShreds (n : Nat)
  | invalidParentOffset (slot : Nat) (parentOffset : Nat)
  | invalidParentSlot
  | invalidPayloadSize (size : Nat)
  | invalidShredFlags (flags : Nat)
  | invalidShredType
  | invalidShredVariant
deriving DecidableEq

/-- `impl TryFrom<u8> for ShredVariant`. -/
def shredVariantFromByte (b : Nat) : Except ShredError ShredVariant :=
  if b = CODE_VARIANT_BYTE then .ok .LegacyCode
  else if b = DATA_VARIANT_BYTE then .ok .LegacyData
  else .error .invalidShredVariant

/-- `ShredCommonHeader`: signature (64 bytes), variant tag, slot (u64),
index (u32), version (u16), fec_set_index (u32). -/
structure ShredCommonHeader where
  signature : List Nat
  shred_variant : ShredVariant
  slot : Nat
  index : Nat
  version : Nat
  fec_set_index : Nat
deriving DecidableEq

/-- `DataShredHeader`: parent_offset (u16), flags (u8, bit-packed), size (u16). -/
structure DataShredHeader where
  parent_offset : Nat
  flags : Nat
  size : Nat
deriving DecidableEq

/-- `CodingShredHeader`: num_data_shreds, num_coding_shreds, position (u16 each). -/
structure CodingShredHeader where
  num_data_shreds : Nat
  num_coding_shreds : Nat
  position : Nat
deriving DecidableEq

/-- `ShredFlags::SHRED_TICK_REFERENCE_MASK` bits. -/
def SHRED_TICK_REFERENCE_MASK : Nat := 0x3f

/-- `ShredFlags::DATA_COMPLETE_SHRED` bits. -/
def DATA_COMPLETE_SHRED : Nat := 0x40

/-- `ShredFlags::LAST_SHRED_IN_SLOT` bits (note: contains `DATA_COMPLETE_SHRED`). -/
def LAST_SHRED_IN_SLOT : Nat := 0xc0

/-- Fixed sizes of the wire headers (hardcoded constants of `shred.rs`). -/
def SIZE_OF_COMMON_SHRED_HEADER : Nat := 83

def SIZE_OF_DATA_SHRED_HEADERS : Nat := 88

def SIZE_OF_CODING_SHRED_HEADERS : Nat := 89

def SIZE_OF_SIGNATURE : Nat := 64

def OFFSET_OF_SHRED_VARIANT : Nat := 64

def OFFSET_OF_SHRED_SLOT : Nat := 65

def OFFSET_OF_SHRED_INDEX : Nat := 73

def SIZE_OF_SHRED_INDEX : Nat := 4

/-- Modelled from the spec: total legacy shred payload size. The repository
pins the legacy data capacity at 1051 via `const_assert_eq!` in `shred.rs`,
which together with the 88/89-byte headers of the wire format in the spec
gives a fixed 1228-byte frame (88 + 1051 + 89 restricted bytes). -/
def SHRED_PAYLOAD_SIZE : Nat := 1228

/-- `LEGACY_SHRED_DATA_CAPACITY` (pinned to 1051 by `const_assert_eq!`). -/
def LEGACY_SHRED_DATA_CAPACITY : Nat := 1051

/-- Modelled from the spec: `MAX_DATA_SHREDS_PER_SLOT` lives in
`ledger/src/blockstore.rs`, which is not part of the sources; the spec calls
it the hard per-slot cap on shred indices. The upstream protocol constant is
32768. -/
def MAX_DATA_SHREDS_PER_SLOT : Nat := 32768

/-- `MAX_DATA_SHREDS_PER_FEC_BLOCK` from `shred.rs`. -/
def MAX_DATA_SHREDS_PER_FEC_BLOCK : Nat := 32

/-- `ShredData` (legacy): common header, data header, and the full frame
bytes. The `payload` keeps the entire serialized frame, headers included. -/
structure ShredData where
  common_header : ShredCommonHeader
  data_header : DataShredHeader
  payload : List Nat
deriving DecidableEq

/-- `ShredCode` (legacy): common header, coding header, full frame bytes. -/
structure ShredCode where
  common_header : ShredCommonHeader
  coding_header : CodingShredHeader
  payload : List Nat
deriving DecidableEq

/-- Modelled from the spec: flag accessors of `shred_data.rs` (not in the
sources). Per the wire-format notes, bits 6+7 of the flags byte mean
last-in-slot, so the accessor tests that both bits of
`LAST_SHRED_IN_SLOT` are present. -/
def ShredData.last_in_slot_flag (d : ShredData) : Bool :=
  d.data_header.flags &&& LAST_SHRED_IN_SLOT = LAST_SHRED_IN_SLOT

/-- Modelled from the spec: bit 6 of the flags byte means data-complete. -/
def ShredData.data_complete_flag (d : ShredData) : Bool :=
  d.data_header.flags &&& DATA_COMPLETE_SHRED = DATA_COMPLETE_SHRED

/-- Modelled from the spec: low six bits of the flags byte are the
tick-reference counter. -/
def ShredData.reference_tick_of (d : ShredData) : Nat :=
  d.data_header.flags &&& SHRED_TICK_REFERENCE_MASK

/-- Modelled from the spec: `set_last_in_slot` on a data shred ors the
`LAST_SHRED_IN_SLOT` bits into the flags. Per the comment in `shred.rs` it
"only changes the meta information", so the payload bytes are untouched. -/
def ShredData.with_last_in_slot (d : ShredData) : ShredData :=
  { d with data_header := { d.data_header with
      flags := d.data_header.flags ||| LAST_SHRED_IN_SLOT } }

/-- Modelled from the spec: `ShredData::parent` of `shred_data.rs` (not in
the sources); behavior is pinned by `test_invalid_parent_offset`:
a zero `parent_offset` on a nonzero slot, or an offset exceeding the slot,
is an `InvalidParentOffset` error, otherwise `slot - parent_offset`. -/
def ShredData.parent_slot (d : ShredData) : Except ShredError Nat :=
  let slot := d.common_header.slot
  let parent_offset := d.data_header.parent_offset
  if parent_offset = 0 ∧ slot ≠ 0 then
    .error (.invalidParentOffset slot parent_offset)
  else if slot < parent_offset then
    .error (.invalidParentOffset slot parent_offset)
  else .ok (slot - parent_offset)

/-- Modelled from the spec: the data section of a data shred (payload bytes
between the 88 header bytes and the declared size). -/
def ShredData.data_section (d : ShredData) : List Nat :=
  (d.payload.take d.data_header.size).drop SIZE_OF_DATA_SHRED_HEADERS

/-- Modelled from the spec: `ShredCode::erasure_mismatch` of
`shred_code.rs` (not in the sources) compares the two coding shreds'
declared group sizes and first coding indices. -/
def ShredCode.mismatch_with (c other : ShredCode) : Bool :=
  c.coding_header.num_data_shreds ≠ other.coding_header.num_data_shreds ||
  c.coding_header.num_coding_shreds ≠ other.coding_header.num_coding_shreds ||
  (c.common_header.index - c.coding_header.position) ≠
    (other.common_header.index - other.coding_header.position)

/-- The polymorphic `Shred` enum over the two variants. -/
inductive Shred where
  | ShredCode (shred : ShredCode)
  | ShredData (shred : ShredData)
deriving DecidableEq

namespace Shred

/-- Dispatch of `common_header()`. -/
def common_header : Shred → ShredCommonHeader
  | .ShredCode shred => shred.common_header
  | .ShredData shred => shred.common_header

/-- `Shred::slot`. -/
def slot (s : Shred) : Nat := s.common_header.slot

/-- `Shred::index`. -/
def index (s : Shred) : Nat := s.common_header.index

/-- `Shred::version`. -/
def version (s : Shred) : Nat := s.common_header.version

/-- `Shred::fec_set_index`. -/
def fec_set_index (s : Shred) : Nat := s.common_header.fec_set_index

/-- `Shred::signature`. -/
def signature (s : Shred) : List Nat := s.common_header.signature

/-- Dispatch of `payload()`. -/
def payload : Shred → List Nat
  | .ShredCode shred => shred.payload
  | .ShredData shred => shred.payload

/-- `Shred::shred_type` (variant tag mapped to the type). -/
def shred_type (s : Shred) : ShredType := s.common_header.shred_variant.toShredType

/-- `Shred::is_data`. -/
def is_data (s : Shred) : Bool := s.shred_type = ShredType.Data

/-- `Shred::is_code`. -/
def is_code (s : Shred) : Bool := s.shred_type = ShredType.Code

/-- `Shred::last_in_slot`: coding shreds answer `false`. -/
def last_in_slot : Shred → Bool
  | .ShredCode _ => false
  | .ShredData shred => ShredData.last_in_slot_flag shred

/-- `Shred::set_last_in_slot`: no-op on coding shreds. -/
def set_last_in_slot : Shred → Shred
  | .ShredCode shred => .ShredCode shred
  | .ShredData shred => .ShredData (ShredData.with_last_in_slot shred)

/-- `Shred::data_complete`: coding shreds answer `false`. -/
def data_complete : Shred → Bool
  | .ShredCode _ => false
  | .ShredData shred => ShredData.data_complete_flag shred

/-- `Shred::reference_tick`: coding shreds answer the full mask. -/
def reference_tick : Shred → Nat
  | .ShredCode _ => SHRED_TICK_REFERENCE_MASK
  | .ShredData shred => ShredData.reference_tick_of shred

/-- `Shred::parent`: invalid on coding shreds. -/
def parent : Shred → Except ShredError Nat
  | .ShredCode _ => .error .invalidShredType
  | .ShredData shred => ShredData.parent_slot shred

/-- `Shred::data`: invalid on coding shreds. -/
def data : Shred → Except ShredError (List Nat)
  | .ShredCode _ => .error .invalidShredType
  | .ShredData shred => .ok (ShredData.data_section shred)

/-- `Shred::erasure_mismatch`: only valid between two coding shreds. -/
def erasure_mismatch : Shred → Shred → Except ShredError Bool
  | .ShredCode shred, .ShredCode other => .ok (ShredCode.mismatch_with shred other)
  | _, _ => .error .invalidShredType

/-- `Shred::num_data_shreds`: invalid on data shreds. -/
def num_data_shreds : Shred → Except ShredError Nat
  | .ShredCode shred => .ok shred.coding_header.num_data_shreds
  | .ShredData _ => .error .invalidShredType

/-- `Shred::num_coding_shreds`: invalid on data shreds. -/
def num_coding_shreds : Shred → Except ShredError Nat
  | .ShredCode shred => .ok shred.coding_header.num_coding_shreds
  | .ShredData _ => .error .invalidShredType

end Shred

/-! ## Wire layout parser (`mod layout` and `get_shred_slot_index_type`) -/

/-- Model of `Packet`: raw buffer plus the repair metadata flag. -/
structure Packet where
  data : List Nat
  repair : Bool
deriving DecidableEq

namespace layout

/-- `layout::get_shred_size`: repair packets carry a trailing 4-byte nonce. -/
def get_shred_size (p : Packet) : Option Nat :=
  if p.repair then
    if 4 ≤ p.data.length then some (p.data.length - 4) else none
  else some p.data.length

/-- `layout::get_shred`: the packet's shred bytes, requiring at least a
64-byte signature. -/
def get_shred (p : Packet) : Option (List Nat) :=
  match get_shred_size p with
  | none => none
  | some size =>
      if SIZE_OF_SIGNATURE ≤ size then some (p.data.take size) else none

/-- `layout::get_signature`: the first 64 bytes. -/
def get_signature (shred : List Nat) : Option (List Nat) :=
  if SIZE_OF_SIGNATURE ≤ shred.length then some (shred.take SIZE_OF_SIGNATURE)
  else none

/-- `layout::get_shred_variant`: byte 64, or `InvalidPayloadSize` when the
buffer is shorter, then `TryFrom<u8>` for the tag. -/
def get_shred_variant (shred : List Nat) : Except ShredError ShredVariant :=
  match shred[OFFSET_OF_SHRED_VARIANT]? with
  | none => .error (.invalidPayloadSize shred.length)
  | some b => shredVariantFromByte b

/-- `layout::get_shred_type`. -/
def get_shred_type (shred : List Nat) : Except ShredError ShredType :=
  (get_shred_variant shred).map ShredVariant.toShredType

/-- `layout::get_slot`: little-endian u64 at offset 65; `None` when fewer
than eight bytes remain. -/
def get_slot (shred : List Nat) : Option Nat :=
  if OFFSET_OF_SHRED_SLOT + 8 ≤ shred.length then
    some (leVal ((shred.drop OFFSET_OF_SHRED_SLOT).take 8))
  else none

/-- `layout::get_index`: little-endian u32 at offset 73. -/
def get_index (shred : List Nat) : Option Nat :=
  if OFFSET_OF_SHRED_INDEX + 4 ≤ shred.length then
    some (leVal ((shred.drop OFFSET_OF_SHRED_INDEX).take 4))
  else none

/-- `layout::get_reference_tick`: data shreds only; the flags byte sits at
offset 85 (common header + parent offset). -/
def get_reference_tick (shred : List Nat) : Except ShredError Nat :=
  match get_shred_type shred with
  | .error e => .error e
  | .ok t =>
      if t ≠ ShredType.Data then .error .invalidShredType
      else
        match shred[SIZE_OF_COMMON_SHRED_HEADER + 2]? with
        | none => .error (.invalidPayloadSize shred.length)
        | some flags => .ok (flags &&& SHRED_TICK_REFERENCE_MASK)

end layout

/-- The counters of `ShredFetchStats` that the fast extraction path bumps. -/
structure ShredFetchStats where
  index_overrun : Nat
  bad_shred_type : Nat
  slot_bad_deserialize : Nat
  index_bad_deserialize : Nat
  index_out_of_bounds : Nat
deriving DecidableEq

/-- `get_shred_slot_index_type`: partial deserialization of (slot, index,
type) from a packet, bumping exactly one stats counter on each failure. -/
def get_shred_slot_index_type (p : Packet) (stats : ShredFetchStats) :
    Option (Nat × Nat × ShredType) × ShredFetchStats :=
  match layout.get_shred p with
  | none => (none, { stats with index_overrun := stats.index_overrun + 1 })
  | some shred =>
      if shred.length < OFFSET_OF_SHRED_INDEX + SIZE_OF_SHRED_INDEX then
        (none, { stats with index_overrun := stats.index_overrun + 1 })
      else
        match layout.get_shred_type shred with
        | .error _ =>
            (none, { stats with bad_shred_type := stats.bad_shred_type + 1 })
        | .ok shred_type =>
            match layout.get_slot shred with
            | none =>
                (none, { stats with
                  slot_bad_deserialize := stats.slot_bad_deserialize + 1 })
            | some slot =>
                match layout.get_index shred with
                | none =>
                    (none, { stats with
                      index_bad_deserialize := stats.index_bad_deserialize + 1 })
                | some index =>
                    if MAX_DATA_SHREDS_PER_SLOT ≤ index then
                      (none, { stats with
                        index_out_of_bounds := stats.index_out_of_bounds + 1 })
                    else (some (slot, index, shred_type), stats)

/-! ## Codec: serialization, construction, deserialization -/

/-- Bincode serialization of `ShredCommonHeader` (83 bytes): 64-byte
signature, 1-byte variant tag, little-endian slot/index/version/fec. -/
def serializeCommonHeader (h : ShredCommonHeader) : List Nat :=
  h.signature ++ h.shred_variant.toByte ::
    (leBytes 8 h.slot ++ (leBytes 4 h.index ++ (leBytes 2 h.version ++ leBytes 4 h.fec_set_index)))

/-- Bincode serialization of `DataShredHeader` (5 bytes). -/
def serializeDataHeader (h : DataShredHeader) : List Nat :=
  leBytes 2 h.parent_offset ++ (h.flags % 256) :: leBytes 2 h.size

/-- Bincode serialization of `CodingShredHeader` (6 bytes). -/
def serializeCodingHeader (h : CodingShredHeader) : List Nat :=
  leBytes 2 h.num_data_shreds ++ (leBytes 2 h.num_coding_shreds ++ leBytes 2 h.position)

/-- Pad a byte list with zeros on the right up to length `n`. -/
def rightPadZeros (n : Nat) (l : List Nat) : List Nat :=
  l ++ List.replicate (n - l.length) 0

/-- Modelled from the spec: external Ed25519 signer (`Keypair::sign_message`
of the SDK). Modelled as a deterministic 64-byte value derived from the key
and the first bytes of the message. -/
def signMessage (keypair : Nat) (message : List Nat) : List Nat :=
  (keypair + 1) :: (message ++ List.replicate 63 0).take 63

/-- Modelled from the spec: the legacy signed range is the whole frame past
the 64 signature bytes (`legacy::SIGNED_MESSAGE_RANGE`). -/
def Shred.signed_message (s : Shred) : List Nat :=
  s.payload.drop SIZE_OF_SIGNATURE

/-- `Shred::set_signature` writes the signature into the header and into the
leading 64 payload bytes. -/
def Shred.set_signature (sig : List Nat) : Shred → Shred
  | .ShredData d => .ShredData { d with
      common_header := { d.common_header with signature := sig },
      payload := sig ++ d.payload.drop SIZE_OF_SIGNATURE }
  | .ShredCode c => .ShredCode { c with
      common_header := { c.common_header with signature := sig },
      payload := sig ++ c.payload.drop SIZE_OF_SIGNATURE }

/-- `Shred::sign`. -/
def Shred.sign (keypair : Nat) (s : Shred) : Shred :=
  s.set_signature (signMessage keypair s.signed_message)

/-- `Shred::verify` against a claimed public key (model: key = keypair). -/
def Shred.verify (pubkey : Nat) (s : Shred) : Bool :=
  s.signature == signMessage pubkey s.signed_message

/-- Modelled from the spec: `ShredData::new_from_data` of `shred_data.rs`
(not in the sources). Builds the headers, merges the clamped reference tick
into the flags byte, and lays the frame out as
headers ++ data ++ zero padding to the fixed frame size. -/
def new_from_data (slot index parent_offset : Nat) (data : List Nat)
    (flags reference_tick version fec_set_index : Nat) : ShredData :=
  let flagsByte := flags ||| min reference_tick SHRED_TICK_REFERENCE_MASK
  let common : ShredCommonHeader :=
    { signature := List.replicate SIZE_OF_SIGNATURE 0
      shred_variant := .LegacyData
      slot := slot, index := index, version := version
      fec_set_index := fec_set_index }
  let dh : DataShredHeader :=
    { parent_offset := parent_offset, flags := flagsByte
      size := SIZE_OF_DATA_SHRED_HEADERS + data.length }
  { common_header := common
    data_header := dh
    payload := rightPadZeros SHRED_PAYLOAD_SIZE
      (serializeCommonHeader common ++ (serializeDataHeader dh ++ data)) }

/-- Modelled from the spec: `ShredCode::new_from_parity_shard` of
`shred_code.rs` (not in the sources). -/
def new_from_parity_shard (slot index : Nat) (parity_shard : List Nat)
    (fec_set_index num_data_shreds num_coding_shreds position version : Nat) :
    ShredCode :=
  let common : ShredCommonHeader :=
    { signature := List.replicate SIZE_OF_SIGNATURE 0
      shred_variant := .LegacyCode
      slot := slot, index := index, version := version
      fec_set_index := fec_set_index }
  let ch : CodingShredHeader :=
    { num_data_shreds := num_data_shreds
      num_coding_shreds := num_coding_shreds
      position := position }
  { common_header := common
    coding_header := ch
    payload := rightPadZeros SHRED_PAYLOAD_SIZE
      (serializeCommonHeader common ++ (serializeCodingHeader ch ++ parity_shard)) }

/-- Read `n` bytes from a cursor; `none` models a bincode EOF error. -/
def readBytes (n : Nat) (b : List Nat) : Option (List Nat × List Nat) :=
  if n ≤ b.length then some (b.take n, b.drop n) else none

/-- Parse a `ShredCommonHeader` from the front of a buffer. -/
def parseCommonHeader (b : List Nat) :
    Except ShredError (ShredCommonHeader × List Nat) :=
  match readBytes SIZE_OF_SIGNATURE b with
  | none => .error .bincodeError
  | some (sig, b) =>
  match b with
  | [] => .error .bincodeError
  | vb :: b =>
  match shredVariantFromByte vb with
  | .error e => .error e
  | .ok variant =>
  match readBytes 8 b with
  | none => .error .bincodeError
  | some (slotB, b) =>
  match readBytes 4 b with
  | none => .error .bincodeError
  | some (idxB, b) =>
  match readBytes 2 b with
  | none => .error .bincodeError
  | some (verB, b) =>
  match readBytes 4 b with
  | none => .error .bincodeError
  | some (fecB, b) =>
    .ok ({ signature := sig, shred_variant := variant, slot := leVal slotB
           index := leVal idxB, version := leVal verB
           fec_set_index := leVal fecB }, b)

/-- Parse a `DataShredHeader` from the front of a buffer. -/
def parseDataHeader (b : List Nat) :
    Except ShredError (DataShredHeader × List Nat) :=
  match readBytes 2 b with
  | none => .error .bincodeError
  | some (poB, b) =>
  match b with
  | [] => .error .bincodeError
  | fl :: b =>
  match readBytes 2 b with
  | none => .error .bincodeError
  | some (szB, b) =>
    .ok ({ parent_offset := leVal poB, flags := fl, size := leVal szB }, b)

/-- Parse a `CodingShredHeader` from the front of a buffer. -/
def parseCodingHeader (b : List Nat) :
    Except ShredError (CodingShredHeader × List Nat) :=
  match readBytes 2 b with
  | none => .error .bincodeError
  | some (ndB, b) =>
  match readBytes 2 b with
  | none => .error .bincodeError
  | some (ncB, b) =>
  match readBytes 2 b with
  | none => .error .bincodeError
  | some (posB, b) =>
    .ok ({ num_data_shreds := leVal ndB, num_coding_shreds := leVal ncB
           position := leVal posB }, b)

/-- Modelled from the spec: `ShredData::sanitize` of the legacy codec
(not in the sources): fixed frame size, bounded index, valid parent
relation, declared size within the frame, and the flag invariant that
last-in-slot requires data-complete (spec section on error kinds). -/
def sanitizeData (d : ShredData) : Except ShredError Unit :=
  if d.payload.length ≠ SHRED_PAYLOAD_SIZE then
    .error (.invalidPayloadSize d.payload.length)
  else if MAX_DATA_SHREDS_PER_SLOT ≤ d.common_header.index then
    .error (.invalidDataShredIndex d.common_header.index)
  else
    match ShredData.parent_slot d with
    | .error e => .error e
    | .ok _ =>
      if d.payload.length < d.data_header.size ∨
          d.data_header.size < SIZE_OF_DATA_SHRED_HEADERS then
        .error (.invalidDataSize d.data_header.size d.payload.length)
      else if d.data_header.flags &&& LAST_SHRED_IN_SLOT ≠ 0 ∧
          d.data_header.flags &&& DATA_COMPLETE_SHRED = 0 then
        .error (.invalidShredFlags d.data_header.flags)
      else .ok ()

/-- Modelled from the spec: `ShredCode::sanitize` of the legacy codec
(not in the sources): fixed frame size and a bounded coding-shred count. -/
def sanitizeCode (c : ShredCode) : Except ShredError Unit :=
  if c.payload.length ≠ SHRED_PAYLOAD_SIZE then
    .error (.invalidPayloadSize c.payload.length)
  else if 8 * MAX_DATA_SHREDS_PER_FEC_BLOCK < c.coding_header.num_coding_shreds then
    .error (.invalidNumCodingShreds c.coding_header.num_coding_shreds)
  else .ok ()

/-- Modelled from the spec: `ShredData::from_payload`: parse both headers,
require the data variant tag, pad the frame to its fixed size, sanitize. -/
def dataFromPayload (b : List Nat) : Except ShredError ShredData :=
  match parseCommonHeader b with
  | .error e => .error e
  | .ok (common, rest) =>
    if common.shred_variant ≠ ShredVariant.LegacyData then
      .error .invalidShredVariant
    else
      match parseDataHeader rest with
      | .error e => .error e
      | .ok (dh, _) =>
          let shred : ShredData :=
            { common_header := common, data_header := dh
              payload := rightPadZeros SHRED_PAYLOAD_SIZE (b.take SHRED_PAYLOAD_SIZE) }
          match sanitizeData shred with
          | .error e => .error e
          | .ok _ => .ok shred

/-- Modelled from the spec: `ShredCode::from_payload`. -/
def codeFromPayload (b : List Nat) : Except ShredError ShredCode :=
  match parseCommonHeader b with
  | .error e => .error e
  | .ok (common, rest) =>
    if common.shred_variant ≠ ShredVariant.LegacyCode then
      .error .invalidShredVariant
    else
      match parseCodingHeader rest with
      | .error e => .error e
      | .ok (ch, _) =>
          let shred : ShredCode :=
            { common_header := common, coding_header := ch
              payload := rightPadZeros SHRED_PAYLOAD_SIZE (b.take SHRED_PAYLOAD_SIZE) }
          match sanitizeCode shred with
          | .error e => .error e
          | .ok _ => .ok shred

/-- `Shred::new_from_serialized_shred`: dispatch on the variant tag. -/
def new_from_serialized_shred (b : List Nat) : Except ShredError Shred :=
  match layout.get_shred_variant b with
  | .error e => .error e
  | .ok .LegacyCode => (codeFromPayload b).map Shred.ShredCode
  | .ok .LegacyData => (dataFromPayload b).map Shred.ShredData

/-! ## Signing seed and the shred-type feature gate -/

/-- Modelled from the spec: the slice of `Bank` state consulted by the seed
feature gate — the activation slot of the `add_shred_type_to_shred_seed`
feature and the epoch schedule (a map from slots to epochs). Both live in
external SDK crates. -/
structure Bank where
  activatedSlot : Option Nat
  getEpoch : Nat → Nat

/-- `add_shred_type_to_shred_seed` from `shred.rs`: the tag is added only
when the feature is activated and its activation epoch is strictly earlier
than the epoch of the shred's slot. -/
def add_shred_type_to_shred_seed (shred_slot : Nat) (bank : Bank) : Bool :=
  match bank.activatedSlot with
  | none => false
  | some feature_slot => bank.getEpoch feature_slot < bank.getEpoch shred_slot

/-- Modelled 32-byte public key rendering (`Pubkey::to_bytes`, opaque). -/
def pubkeyBytes (pk : Nat) : List Nat := [pk]

/-- The list of byte strings fed to `hashv` by `Shred::seed` (the hash
itself is an external collaborator, so the embedding exposes its input). -/
def Shred.seedInput (s : Shred) (leader_pubkey : Nat) (root_bank : Bank) :
    List (List Nat) :=
  if add_shred_type_to_shred_seed s.slot root_bank then
    [leBytes 8 s.slot, [s.shred_type.toByte], leBytes 4 s.index,
      pubkeyBytes leader_pubkey]
  else
    [leBytes 8 s.slot, leBytes 4 s.index, pubkeyBytes leader_pubkey]

/-- A concrete data shred with flags byte 253 (`0b1111_1101`), used as a
witness input. -/
def exFlagShred : ShredData :=
  { common_header :=
      { signature := []
        shred_variant := .LegacyData
        slot := 0, index := 0, version := 0, fec_set_index := 0 }
    data_header := { parent_offset := 0, flags := 253, size := 0 }
    payload := [] }

/-- A concrete coding shred used as a witness input. -/
def exCodeShred : ShredCode :=
  { common_header :=
      { signature := []
        shred_variant := .LegacyCode
        slot := 8, index := 2, version := 200, fec_set_index := 10 }
    coding_header := { num_data_shreds := 30, num_coding_shreds := 4, position := 1 }
    payload := [] }

/-- A concrete bank where the seed feature activated at slot 100 and epochs
are 32 slots long. -/
def exBank : Bank :=
  { activatedSlot := some 100, getEpoch := fun s => s / 32 }

/-- A concrete bank where the seed feature is not activated. -/
def exBankOff : Bank :=
  { activatedSlot := none, getEpoch := fun s => s / 32 }

/-- A concrete 65-byte buffer whose variant tag byte is the coding tag. -/
def exCodeBytes : List Nat := List.replicate 64 0 ++ [0x5a]

/-- A concrete zeroed stats record. -/
def exStats : ShredFetchStats :=
  { index_overrun := 0, bad_shred_type := 0, slot_bad_deserialize := 0
    index_bad_deserialize := 0, index_out_of_bounds := 0 }

/-- A concrete 77-byte data-tagged packet whose parsed index
(4294967285 = `u32::MAX - 10`) exceeds the per-slot cap. -/
def exOobPacket : Packet :=
  { data := List.replicate 64 0 ++ 0xa5 :: (leBytes 8 1 ++ leBytes 4 4294967285)
    repair := false }

/-! ## Duplicate broadcaster: partition selection (`transmit`) -/

/-- Total stake of a list of (identity, stake) pairs. -/
def stakeSum (l : List (Nat × Nat)) : Nat := (l.map Prod.snd).sum

/-- The ascending (stake, identity) ordering used by `sorted_by_key` in
`BroadcastDuplicatesRun::transmit`. -/
def stakeKeyLe (a b : Nat × Nat) : Bool :=
  decide (a.2 < b.2) || (a.2 == b.2 && decide (a.1 ≤ b.1))

/-- The `take_while` with the running `cumilative_stake` accumulator:
a node is kept exactly when the cumulative stake including it stays within
the threshold, stopping at the first node that would exceed it. -/
def takeWhileStake (threshold : Nat) : Nat → List (Nat × Nat) → List (Nat × Nat)
  | _, [] => []
  | acc, x :: xs =>
      if acc + x.2 ≤ threshold then x :: takeWhileStake threshold (acc + x.2) xs
      else []

/-- The epoch staked nodes with self excluded, sorted ascending by
(stake, identity). -/
def sortedStakes (stakes : List (Nat × Nat)) (self_pubkey : Nat) :
    List (Nat × Nat) :=
  (stakes.filter (fun n => n.1 != self_pubkey)).mergeSort stakeKeyLe

/-- The `cluster_partition` computation of
`BroadcastDuplicatesRun::transmit`: exclude self, sort ascending by
(stake, identity), accumulate while the cumulative stake stays within
`stake_partition`, and keep the identities. -/
def cluster_partition (stakes : List (Nat × Nat))
    (self_pubkey stake_partition : Nat) : List Nat :=
  (takeWhileStake stake_partition 0 (sortedStakes stakes self_pubkey)).map
    Prod.fst

/-- A concrete stake table for witnesses. -/
def exStakes : List (Nat × Nat) := [(1, 10), (2, 5), (3, 100)]

/-- The same stake table in a different iteration order. -/
def exStakesPerm : List (Nat × Nat) := [(3, 100), (1, 10), (2, 5)]

/-- A cluster node as seen by `transmit` (gossip contact info: identity and
the TVU shred-receiving address). -/
structure Node where
  id : Nat
  tvu : Nat
deriving DecidableEq

/-- The environment of one `transmit` invocation: self identity, the stake
table of the slot's leader-schedule epoch, the configured partition stake,
the known peers (`all_peers`), the stake-weighted fan-out resolver
(`get_broadcast_addrs`), the gossip contact lookup
(`lookup_contact_info(...).tvu`), and the socket address space check. -/
structure TransmitEnv where
  self_pubkey : Nat
  stakes : List (Nat × Nat)
  stake_partition : Nat
  nodes : List Node
  broadcast_addrs : Shred → List Nat
  contact_tvu : Nat → Option Nat
  check_addr : Nat → Bool

/-- One iteration of the `filter_map` closure in `transmit`, threading the
two signature-tracking sets (the locked `HashSet`s, modelled as lists):
resolve the first fan-out address, find the owning node, drop disallowed
addresses; an original-tail signature is consumed and dropped when the
node is a partition peer; a partition-tail signature is consumed and
force-routed to every partition peer with known contact info; any other
frame goes to the fan-out node. -/
def routeShred (env : TransmitEnv) (partition : List Nat)
    (origSet partSet : List (List Nat)) (shred : Shred) :
    List (List Nat × Nat) × List (List Nat) × List (List Nat) :=
  match (env.broadcast_addrs shred).head? with
  | none => ([], origSet, partSet)
  | some addr =>
    match env.nodes.find? (fun node => node.tvu == addr) with
    | none => ([], origSet, partSet)
    | some node =>
      if env.check_addr node.tvu = false then ([], origSet, partSet)
      else if shred.signature ∈ origSet then
        if node.id ∈ partition then
          ([], origSet.erase shred.signature, partSet)
        else
          ([(shred.payload, node.tvu)], origSet.erase shred.signature, partSet)
      else if shred.signature ∈ partSet then
        (partition.filterMap (fun pk =>
            (env.contact_tvu pk).map (fun tvu => (shred.payload, tvu))),
          origSet, partSet.erase shred.signature)
      else ([(shred.payload, node.tvu)], origSet, partSet)

/-- The sequential `filter_map` over a received batch, threading the
signature sets shred by shred and concatenating the emitted packets. -/
def transmitLoop (env : TransmitEnv) (partition : List Nat) :
    List Shred → List (List Nat) → List (List Nat) →
    List (List Nat × Nat) × List (List Nat) × List (List Nat)
  | [], origSet, partSet => ([], origSet, partSet)
  | shred :: rest, origSet, partSet =>
      let step := routeShred env partition origSet partSet shred
      let restOut := transmitLoop env partition rest step.2.1 step.2.2
      (step.1 ++ restOut.1, restOut.2)

/-- The packet construction of `BroadcastDuplicatesRun::transmit` over one
received batch: the cluster partition is computed once from the stake
table, then the batch is routed. -/
def transmitPackets (env : TransmitEnv) (shreds : List Shred)
    (origSet partSet : List (List Nat)) :
    List (List Nat × Nat) × List (List Nat) × List (List Nat) :=
  transmitLoop env
    (cluster_partition env.stakes env.self_pubkey env.stake_partition)
    shreds origSet partSet

/-- The pre-checks of the routing closure succeed for a shred: the fan-out
resolver yields an address owned by a known node in the allowed address
space. -/
def routeReachable (env : TransmitEnv) (s : Shred) : Prop :=
  ∃ addr node, (env.broadcast_addrs s).head? = some addr ∧
    env.nodes.find? (fun n => n.tvu == addr) = some node ∧
    env.check_addr node.tvu = true

/-- A concrete transmit environment: three nodes, self = 3, partition
threshold 6 (so the partition set is `[2]`), resolver always picking
node 1. -/
def exEnv : TransmitEnv :=
  { self_pubkey := 3
    stakes := exStakes
    stake_partition := 6
    nodes := [{ id := 1, tvu := 11 }, { id := 2, tvu := 12 },
      { id := 3, tvu := 13 }]
    broadcast_addrs := fun _ => [11]
    contact_tvu := fun pk =>
      if pk = 1 then some 11 else if pk = 2 then some 12
      else if pk = 3 then some 13 else none
    check_addr := fun _ => true }

/-- A concrete original-tail shred for the transmit witness. -/
def exOrigShred : Shred :=
  .ShredData
    { common_header :=
        { signature := [1]
          shred_variant := .LegacyData
          slot := 25, index := 1, version := 0, fec_set_index := 0 }
      data_header := { parent_offset := 1, flags := 0xc0, size := 88 }
      payload := [201] }

/-- A concrete partition-tail shred for the transmit witness. -/
def exPartShred : Shred :=
  .ShredData
    { common_header :=
        { signature := [2]
          shred_variant := .LegacyData
          slot := 25, index := 1, version := 0, fec_set_index := 0 }
      data_header := { parent_offset := 1, flags := 0x40, size := 88 }
      payload := [202] }

/-! ## Duplicate broadcaster: the `run` stage -/

/-- `MINIMUM_DUPLICATE_SLOT` from `broadcast_duplicates_run.rs`. -/
def MINIMUM_DUPLICATE_SLOT : Nat := 20

/-- `DUPLICATE_RATE` from `broadcast_duplicates_run.rs`. -/
def DUPLICATE_RATE : Nat := 10

/-- Modelled from the spec: a transaction as produced by
`system_transaction::transfer` (external SDK collaborator) — source key,
destination, lamports, and the recent blockhash in the message. -/
structure Transaction where
  fromKeypair : Nat
  dest : Nat
  lamports : Nat
  recent_blockhash : Nat
deriving DecidableEq

/-- Modelled from the spec: a ledger entry (`solana_entry::entry::Entry`,
external collaborator): PoH hash count, entry hash, transactions. -/
structure Entry where
  num_hashes : Nat
  hash : Nat
  transactions : List Transaction
deriving DecidableEq

/-- `Entry::is_tick`: an entry with no transactions. -/
def Entry.is_tick (e : Entry) : Bool := e.transactions.isEmpty

/-- Modelled from the spec: the PoH hash chain of `Entry::new` (external
collaborator), as an opaque deterministic combination. -/
def entryHash (prev_hash num_hashes : Nat) (txs : List Transaction) : Nat :=
  Nat.pair prev_hash (Nat.pair num_hashes txs.length)

/-- `Entry::new(prev_hash, num_hashes, transactions)`. -/
def Entry.new (prev_hash num_hashes : Nat) (txs : List Transaction) : Entry :=
  { num_hashes := num_hashes, hash := entryHash prev_hash num_hashes txs
    transactions := txs }

/-- Modelled from the spec: bincode serialization of one transaction
(opaque fixed-shape encoding by the external serializer). -/
def txBytes (tx : Transaction) : List Nat :=
  leBytes 8 tx.fromKeypair ++ (leBytes 8 tx.dest ++
    (leBytes 8 tx.lamports ++ leBytes 8 tx.recent_blockhash))

/-- Modelled from the spec: bincode serialization of `Vec<Entry>` — an
8-byte count, then each entry as num_hashes, a 32-byte hash, and its
transactions behind an 8-byte count. -/
def entriesBytes (entries : List Entry) : List Nat :=
  leBytes 8 entries.length ++ entries.flatMap (fun e =>
    leBytes 8 e.num_hashes ++ (leBytes 32 e.hash ++
      (leBytes 8 e.transactions.length ++ e.transactions.flatMap txBytes)))

/-- Fuel-driven chunking of serialized entry bytes into data-shred sized
pieces (the per-shred data capacity); the fuel is the byte count, which
bounds the number of chunks. -/
def chunksGo : Nat → List Nat → List (List Nat)
  | 0, l => [l]
  | fuel + 1, l =>
      if l.length ≤ LEGACY_SHRED_DATA_CAPACITY then [l]
      else l.take LEGACY_SHRED_DATA_CAPACITY ::
        chunksGo fuel (l.drop LEGACY_SHRED_DATA_CAPACITY)

/-- Modelled from the spec: split one serialized entry batch into
capacity-sized data chunks; a batch always yields at least one shred. -/
def chunksData (l : List Nat) : List (List Nat) := chunksGo l.length l

/-- Modelled from the spec: `Shredder::entries_to_shreds` (`shredder.rs`
is not in the sources): serialize the entries, split into capacity-sized
chunks, build one signed data shred per chunk — the final chunk is marked
data-complete, and additionally last-in-slot exactly when
`is_last_in_slot` — plus one signed coding shred per 32-chunk erasure
group (the Reed-Solomon parity math is an external black box, modelled as
zero shards). -/
def entriesToShreds (keypair slot parent_slot reference_tick version : Nat)
    (entries : List Entry) (is_last_in_slot : Bool)
    (next_shred_index next_code_index : Nat) : List Shred × List Shred :=
  let cs := chunksData (entriesBytes entries)
  let n := cs.length
  let dataShreds := cs.mapIdx (fun i c =>
    Shred.sign keypair (.ShredData (new_from_data slot
      ((next_shred_index + i) % 2 ^ 32) (slot - parent_slot) c
      (if i = n - 1 then
        (if is_last_in_slot then LAST_SHRED_IN_SLOT else DATA_COMPLETE_SHRED)
      else 0)
      reference_tick version ((next_shred_index + 32 * (i / 32)) % 2 ^ 32))))
  let codeShreds := (List.range ((n + 31) / 32)).map (fun g =>
    Shred.sign keypair (.ShredCode (new_from_parity_shard slot
      ((next_code_index + g) % 2 ^ 32) (List.replicate 1139 0)
      ((next_shred_index + 32 * g) % 2 ^ 32)
      (min 32 (n - 32 * g)) 1 0 version)))
  (dataShreds, codeShreds)

/-- Modelled from the spec: the slice of `Bank` consulted by `run`. -/
structure RunBank where
  slot : Nat
  parent_slot : Nat
  max_tick_height : Nat
  tick_height : Nat
  ticks_per_slot : Nat
deriving DecidableEq

/-- The payload of `recv_slot_entries`: entries produced since the last
call, the reached tick height, and the active bank. -/
structure ReceiveResults where
  entries : List Entry
  last_tick_height : Nat
  bank : RunBank
deriving DecidableEq

/-- The mutable fields of `BroadcastDuplicatesRun` read and written by
`run`. -/
structure DupState where
  current_slot : Nat
  next_shred_index : Nat
  next_code_index : Nat
  shred_version : Nat
  recent_blockhash : Option Nat
  prev_entry_hash : Option Nat
  num_slots_broadcasted : Nat
deriving DecidableEq

/-- The observable effect of one `run` invocation: the new state, the
batches pushed to the blockstore (recorder) channel and to the socket
(transmitter) channel in send order, the bulk batch, the forked terminal
pair, and the signatures recorded into the two tracking sets. -/
structure RunOutput where
  state : DupState
  blockstore_msgs : List (List Shred)
  socket_msgs : List (List Shred)
  bulk : Option (List Shred)
  last_pair : Option (List Shred × List Shred)
  orig_sigs : List (List Nat)
  part_sigs : List (List Nat)
deriving DecidableEq

/-- Assemble the channel messages exactly in the source's send order: the
bulk batch first to the blockstore channel and then to the socket
channel; for a forked slot the original terminal batch next to both
channels, and the partition terminal batch only to the socket channel. -/
def assembleRunOutput (state : DupState) (bulkOpt : Option (List Shred))
    (lastPair : Option (List Shred × List Shred)) : RunOutput :=
  match bulkOpt with
  | none =>
      { state := state, blockstore_msgs := [], socket_msgs := []
        bulk := none, last_pair := none, orig_sigs := [], part_sigs := [] }
  | some bulk =>
      match lastPair with
      | none =>
          { state := state, blockstore_msgs := [bulk], socket_msgs := [bulk]
            bulk := some bulk, last_pair := none, orig_sigs := []
            part_sigs := [] }
      | some (o, p) =>
          { state := state, blockstore_msgs := [bulk, o]
            socket_msgs := [bulk, o, p], bulk := some bulk
            last_pair := some (o, p), orig_sigs := o.map Shred.signature
            part_sigs := p.map Shred.signature }

/-- The body of `BroadcastDuplicatesRun::run` up to the channel sends:
the new state, the bulk batch (absent when the received entries were
empty), and the forked terminal pair. `none` models a panicking path (a
failed `assert!`, `unwrap` or `expect`). -/
def runCore (keypair : Nat) (st0 : DupState) (rr : ReceiveResults) :
    Option (DupState × Option (List Shred) ×
      Option (List Shred × List Shred)) :=
  let bank := rr.bank
  let st1 :=
    if bank.slot ≠ st0.current_slot then
      { st0 with
          next_shred_index := 0
          next_code_index := 0
          current_slot := bank.slot
          prev_entry_hash := none
          num_slots_broadcasted := st0.num_slots_broadcasted + 1 }
    else st0
  if rr.entries.isEmpty then some (st1, none, none)
  else
    let st2 :=
      match rr.entries.find? (fun e => !e.transactions.isEmpty) with
      | some e =>
          match e.transactions with
          | tx :: _ => { st1 with recent_blockhash := some tx.recent_blockhash }
          | [] => st1
      | none => st1
    let fork : Option (Option (Entry × List Entry)) :=
      if rr.last_tick_height = bank.max_tick_height ∧
          MINIMUM_DUPLICATE_SLOT < bank.slot ∧
          st2.num_slots_broadcasted % DUPLICATE_RATE = 0 ∧
          st2.recent_blockhash.isSome then
        match
          (if 1 < rr.entries.length then
            (rr.entries[rr.entries.length - 2]?).map Entry.hash
          else st2.prev_entry_hash) with
        | none => some none
        | some prev_entry_hash =>
            match rr.entries.getLast? with
            | none => some none
            | some original_last_entry =>
                if original_last_entry.is_tick then
                  some (some (original_last_entry,
                    [Entry.new prev_entry_hash 1
                      [⟨keypair, 0, 1, st2.recent_blockhash.getD 0⟩],
                     Entry.new
                       (Entry.new prev_entry_hash 1
                         [⟨keypair, 0, 1, st2.recent_blockhash.getD 0⟩]).hash
                       original_last_entry.num_hashes []]))
                else none
      else some none
    match fork with
    | none => none
    | some lastEntries =>
      let entriesForBulk :=
        if lastEntries.isSome then rr.entries.dropLast else rr.entries
      let st3 := { st2 with prev_entry_hash :=
        match lastEntries with
        | some (o, _) => some o.hash
        | none => (rr.entries.getLast?).map Entry.hash }
      if bank.parent_slot ≤ bank.slot ∧ bank.slot - bank.parent_slot ≤ 65535
      then
        let refTick := (bank.tick_height % bank.ticks_per_slot) % 256
        let bulkPair := entriesToShreds keypair bank.slot bank.parent_slot
          refTick st3.shred_version entriesForBulk
          (decide (rr.last_tick_height = bank.max_tick_height) &&
            lastEntries.isNone)
          st3.next_shred_index st3.next_code_index
        let dataShreds := bulkPair.1
        let codingShreds := bulkPair.2
        let st4 := { st3 with
          next_shred_index :=
            (st3.next_shred_index + dataShreds.length) % 2 ^ 32
          next_code_index :=
            if codingShreds.isEmpty then st3.next_code_index
            else ((codingShreds.map Shred.index).foldl max 0 + 1) % 2 ^ 32 }
        let lastPairAndState :=
          match lastEntries with
          | none => (none, st4)
          | some (original_last_entry, duplicate_extra_last_entries) =>
              (some
                ((entriesToShreds keypair bank.slot bank.parent_slot refTick
                  st4.shred_version [original_last_entry] true
                  st4.next_shred_index st4.next_code_index).1,
                 (entriesToShreds keypair bank.slot bank.parent_slot refTick
                  st4.shred_version duplicate_extra_last_entries true
                  st4.next_shred_index st4.next_code_index).1),
               { st4 with next_shred_index :=
                  (st4.next_shred_index + 1) % 2 ^ 32 })
        let lastPair := lastPairAndState.1
        let st5 := lastPairAndState.2
        if dataShreds.isEmpty then none
        else if ¬ dataShreds.all (fun s => Shred.slot s == bank.slot) then none
        else
          match lastPair with
          | none => some (st5, some dataShreds, none)
          | some (o, p) =>
              if o.all (fun s => Shred.verify keypair s) &&
                  p.all (fun s => Shred.verify keypair s) &&
                  o.all (fun s => Shred.slot s == bank.slot) &&
                  p.all (fun s => Shred.slot s == bank.slot) then
                some (st5, some dataShreds, some (o, p))
              else none
      else none

/-- `BroadcastDuplicatesRun::run`: the core computation followed by the
channel sends in source order. -/
def runStep (keypair : Nat) (st0 : DupState) (rr : ReceiveResults) :
    Option RunOutput :=
  (runCore keypair st0 rr).map
    (fun pre => assembleRunOutput pre.1 pre.2.1 pre.2.2)

/-- A concrete keypair for the run witnesses. -/
def exRunKp : Nat := 7

/-- A concrete broadcaster state one slot before a forking slot: nine
slots already broadcast, so the next new slot is the tenth. -/
def exRunSt : DupState :=
  { current_slot := 24, next_shred_index := 5, next_code_index := 0
    shred_version := 2, recent_blockhash := none, prev_entry_hash := none
    num_slots_broadcasted := 9 }

/-- A concrete bank at slot 25 whose final tick height is reached. -/
def exRunBank : RunBank :=
  { slot := 25, parent_slot := 24, max_tick_height := 64, tick_height := 64
    ticks_per_slot := 64 }

/-- Concrete received entries: one transaction entry, then the final
tick. -/
def exRunRr : ReceiveResults :=
  { entries := [⟨1, 3, [⟨9, 3, 2, 5⟩]⟩, ⟨2, 4, []⟩]
    last_tick_height := 64
    bank := exRunBank }

/-- The concrete run output at the forking input. -/
def exRunOut : RunOutput :=
  (runStep exRunKp exRunSt exRunRr).getD (assembleRunOutput exRunSt none none)

/-- The original terminal batch of the concrete run. -/
def exRunO : List Shred := (exRunOut.last_pair.getD ([], [])).1

/-- The partition terminal batch of the concrete run. -/
def exRunP : List Shred := (exRunOut.last_pair.getD ([], [])).2

/-- Decides, at the concrete forking input, that the two terminal shreds
share slot and index, are each signed and verifiable, and that BOTH are
marked last-in-slot (the code passes `true` for the partition variant's
`is_last_in_slot` despite its own comment). -/
def c1Check : Bool :=
  match runStep exRunKp exRunSt exRunRr with
  | some out =>
      match out.last_pair with
      | some ([sOrig], [sPart]) =>
          (Shred.slot sOrig == Shred.slot sPart) &&
          (Shred.index sOrig == Shred.index sPart) &&
          Shred.last_in_slot sOrig && Shred.last_in_slot sPart &&
          Shred.verify exRunKp sOrig && Shred.verify exRunKp sPart
      | _ => false
  | none => false

/-- Decides, at the concrete forking input, that the partition terminal
batch goes to the socket channel but never to the blockstore (recorder)
channel. -/
def c2Check : Bool :=
  match runStep exRunKp exRunSt exRunRr with
  | some out =>
      match out.last_pair with
      | some (_, p) =>
          decide (p ∈ out.socket_msgs) && decide (p ∉ out.blockstore_msgs)
      | none => false
  | none => false

/-- The bulk batch of the concrete run. -/
def exRunBulk : List Shred := exRunOut.bulk.getD []

/-- The declared data-header size of a shred (0 for coding shreds), a
cheap observable that distinguishes the concrete batches. -/
def dataHeaderSize : Shred → Nat
  | .ShredData d => d.data_header.size
  | .ShredCode _ => 0

/-- A concrete codec-constructed data shred for the round-trip witness. -/
def exRtData : ShredData := new_from_data 100 5 1 [1, 2, 3] 192 37 2 4

/-- A concrete codec-constructed coding shred for the round-trip witness. -/
def exRtCode : ShredCode := new_from_parity_shard 8 2 [9, 9] 10 30 4 1 200

/-! ## Theorems -/

theorem flagByteFacts : ∀ fl, fl < 256 →
    ((fl &&& 192 = 192 → fl &&& 64 = 64) ∧
      (fl ||| 192) &&& 192 = 192 ∧ (fl ||| 192) &&& 64 = 64) := by decide

/-- C7: for every data shred, `last_in_slot()` implies `data_complete()`
(the `LAST_SHRED_IN_SLOT` bits contain the `DATA_COMPLETE_SHRED` bit), and
after `set_last_in_slot()` both accessors answer true regardless of the
prior flag state. -/
theorem flags_last_in_slot_implies_data_complete
    (d : ShredData) (hbyte : d.data_header.flags < 256) :
    (Shred.last_in_slot (.ShredData d) = true →
      Shred.data_complete (.ShredData d) = true) ∧
    Shred.last_in_slot (Shred.set_last_in_slot (.ShredData d)) = true ∧
    Shred.data_complete (Shred.set_last_in_slot (.ShredData d)) = true ∧
    LAST_SHRED_IN_SLOT &&& DATA_COMPLETE_SHRED = DATA_COMPLETE_SHRED := by
  have h := flagByteFacts d.data_header.flags hbyte
  simp only [Shred.last_in_slot, Shred.data_complete, Shred.set_last_in_slot,
    ShredData.last_in_slot_flag, ShredData.data_complete_flag,
    ShredData.with_last_in_slot, LAST_SHRED_IN_SLOT, DATA_COMPLETE_SHRED,
    decide_eq_true_eq]
  exact ⟨h.1, h.2.1, h.2.2, by decide⟩

/-- Witness for C7: the theorem applied at a concrete shred with flags byte
253, whose `set_last_in_slot` result reports both bits. -/
theorem flags_last_in_slot_implies_data_complete_witness :
    Shred.last_in_slot (Shred.set_last_in_slot (.ShredData exFlagShred)) = true ∧
    Shred.data_complete (Shred.set_last_in_slot (.ShredData exFlagShred)) = true :=
  ⟨(flags_last_in_slot_implies_data_complete exFlagShred (by decide)).2.1,
   (flags_last_in_slot_implies_data_complete exFlagShred (by decide)).2.2.1⟩

/-- C8: type-specific operations invoked on the wrong variant return the
`InvalidShredType` error (and, being total functions, never panic):
`num_data_shreds`/`num_coding_shreds` on a data shred, `parent`/`data` on a
coding shred, and `erasure_mismatch` whenever the two arguments are not
both coding shreds. -/
theorem wrong_variant_ops_invalid_shred_type :
    (∀ d : ShredData,
      Shred.num_data_shreds (.ShredData d) = .error .invalidShredType ∧
      Shred.num_coding_shreds (.ShredData d) = .error .invalidShredType) ∧
    (∀ c : ShredCode,
      Shred.parent (.ShredCode c) = .error .invalidShredType ∧
      Shred.data (.ShredCode c) = .error .invalidShredType) ∧
    (∀ s other : Shred,
      (∀ c c', ¬(s = .ShredCode c ∧ other = .ShredCode c')) →
      Shred.erasure_mismatch s other = .error .invalidShredType) := by
  refine ⟨fun d => ⟨rfl, rfl⟩, fun c => ⟨rfl, rfl⟩, fun s other h => ?_⟩
  cases s with
  | ShredData d => cases other <;> rfl
  | ShredCode c =>
      cases other with
      | ShredData d => rfl
      | ShredCode c' => exact absurd ⟨rfl, rfl⟩ (h c c')

/-- Witness for C8: `erasure_mismatch` between a data shred and a coding
shred is the `InvalidShredType` error. -/
theorem wrong_variant_ops_invalid_shred_type_witness :
    Shred.erasure_mismatch (.ShredData exFlagShred) (.ShredCode exCodeShred) =
      .error .invalidShredType :=
  wrong_variant_ops_invalid_shred_type.2.2 (.ShredData exFlagShred)
    (.ShredCode exCodeShred) (fun _ _ h => Shred.noConfusion h.1)

/-- C10: coding shreds answer fixed defaults from the uniform flag
accessors — `last_in_slot` and `data_complete` are false, `reference_tick`
is 63 (the full tick mask), `set_last_in_slot` is a no-op — while the
byte-level `layout::get_reference_tick` on a coding frame is the
`InvalidShredType` error. -/
theorem coding_shred_uniform_accessor_defaults
    (c : ShredCode) (b : List Nat)
    (hb : layout.get_shred_type b = .ok .Code) :
    Shred.last_in_slot (.ShredCode c) = false ∧
    Shred.data_complete (.ShredCode c) = false ∧
    Shred.reference_tick (.ShredCode c) = 63 ∧
    Shred.set_last_in_slot (.ShredCode c) = .ShredCode c ∧
    layout.get_reference_tick b = .error .invalidShredType := by
  refine ⟨rfl, rfl, rfl, rfl, ?_⟩
  simp [layout.get_reference_tick, hb]

/-- Witness for C10 at a concrete coding shred and a concrete buffer whose
variant byte carries the coding tag. -/
theorem coding_shred_uniform_accessor_defaults_witness :
    Shred.reference_tick (.ShredCode exCodeShred) = 63 ∧
    layout.get_reference_tick exCodeBytes = .error .invalidShredType :=
  ⟨(coding_shred_uniform_accessor_defaults exCodeShred exCodeBytes rfl).2.2.1,
   (coding_shred_uniform_accessor_defaults exCodeShred exCodeBytes rfl).2.2.2.2⟩

/-- C9: the seed hash input contains the shred-type tag exactly when the
feature's activation epoch is strictly earlier than the epoch of the
shred's own slot; when the feature is not activated, or the shred's slot
falls in or before the activation epoch, only slot, index and the leader
key are hashed. -/
theorem seed_type_tag_epoch_gate (s : Shred) (pk : Nat) (bank : Bank) :
    (Shred.seedInput s pk bank =
        [leBytes 8 s.slot, [s.shred_type.toByte], leBytes 4 s.index,
          pubkeyBytes pk] ↔
      (∃ fs, bank.activatedSlot = some fs ∧
        bank.getEpoch fs < bank.getEpoch s.slot)) ∧
    ((bank.activatedSlot = none ∨
        ∀ fs, bank.activatedSlot = some fs →
          bank.getEpoch s.slot ≤ bank.getEpoch fs) →
      Shred.seedInput s pk bank =
        [leBytes 8 s.slot, leBytes 4 s.index, pubkeyBytes pk]) := by
  constructor
  · constructor
    · intro h
      by_cases hg : add_shred_type_to_shred_seed s.slot bank = true
      · unfold add_shred_type_to_shred_seed at hg
        cases hact : bank.activatedSlot with
        | none => rw [hact] at hg; simp at hg
        | some fs =>
            rw [hact] at hg
            simp only [decide_eq_true_eq] at hg
            exact ⟨fs, rfl, hg⟩
      · unfold Shred.seedInput at h
        rw [Bool.not_eq_true] at hg
        rw [hg] at h
        simp at h
    · rintro ⟨fs, hfs, hlt⟩
      unfold Shred.seedInput add_shred_type_to_shred_seed
      rw [hfs]
      simp [hlt]
  · intro hcond
    unfold Shred.seedInput add_shred_type_to_shred_seed
    cases hact : bank.activatedSlot with
    | none => simp
    | some fs =>
        have hnlt : ¬ bank.getEpoch fs < bank.getEpoch s.slot := by
          rcases hcond with h | h
          · rw [hact] at h; exact absurd h (by simp)
          · have := h fs hact; omega
        simp [hnlt]

/-- C6: the zero-copy accessors are total and bounds-checked — a buffer
shorter than the addressed field yields `InvalidPayloadSize` or `none`, an
unknown variant tag yields `InvalidShredVariant` — and
`get_shred_slot_index_type` answers `none` while bumping exactly the
counter that matches the failure (`index_overrun`, `bad_shred_type`,
`slot_bad_deserialize`, `index_bad_deserialize`, `index_out_of_bounds`,
the last whenever the parsed index reaches the per-slot cap), leaving the
stats untouched on success. -/
theorem layout_accessors_bounded_and_counted :
    (∀ b : List Nat, b.length ≤ OFFSET_OF_SHRED_VARIANT →
      layout.get_shred_variant b = .error (.invalidPayloadSize b.length)) ∧
    (∀ b : List Nat, ∀ v, b[OFFSET_OF_SHRED_VARIANT]? = some v →
      v ≠ CODE_VARIANT_BYTE → v ≠ DATA_VARIANT_BYTE →
      layout.get_shred_variant b = .error .invalidShredVariant) ∧
    (∀ b : List Nat, b.length < OFFSET_OF_SHRED_SLOT + 8 →
      layout.get_slot b = none) ∧
    (∀ b : List Nat, b.length < OFFSET_OF_SHRED_INDEX + 4 →
      layout.get_index b = none) ∧
    (∀ p stats,
      (layout.get_shred p = none →
        get_shred_slot_index_type p stats =
          (none, { stats with index_overrun := stats.index_overrun + 1 })) ∧
      (∀ sh, layout.get_shred p = some sh →
        (sh.length < OFFSET_OF_SHRED_INDEX + SIZE_OF_SHRED_INDEX →
          get_shred_slot_index_type p stats =
            (none, { stats with index_overrun := stats.index_overrun + 1 })) ∧
        (¬ sh.length < OFFSET_OF_SHRED_INDEX + SIZE_OF_SHRED_INDEX →
          (∀ e, layout.get_shred_type sh = .error e →
            get_shred_slot_index_type p stats =
              (none, { stats with bad_shred_type := stats.bad_shred_type + 1 })) ∧
          (∀ t, layout.get_shred_type sh = .ok t →
            (layout.get_slot sh = none →
              get_shred_slot_index_type p stats =
                (none, { stats with
                  slot_bad_deserialize := stats.slot_bad_deserialize + 1 })) ∧
            (∀ slot, layout.get_slot sh = some slot →
              (layout.get_index sh = none →
                get_shred_slot_index_type p stats =
                  (none, { stats with
                    index_bad_deserialize := stats.index_bad_deserialize + 1 })) ∧
              (∀ idx, layout.get_index sh = some idx →
                (MAX_DATA_SHREDS_PER_SLOT ≤ idx →
                  get_shred_slot_index_type p stats =
                    (none, { stats with
                      index_out_of_bounds := stats.index_out_of_bounds + 1 })) ∧
                (idx < MAX_DATA_SHREDS_PER_SLOT →
                  get_shred_slot_index_type p stats =
                    (some (slot, idx, t), stats)))))))) := by
  refine ⟨?_, ?_, ?_, ?_, ?_⟩
  · intro b hb
    unfold layout.get_shred_variant
    have : b[OFFSET_OF_SHRED_VARIANT]? = none := by
      rw [List.getElem?_eq_none_iff]
      exact hb
    rw [this]
  · intro b v hv h1 h2
    unfold layout.get_shred_variant
    simp only [hv]
    unfold shredVariantFromByte
    rw [if_neg h1, if_neg h2]
  · intro b hb
    unfold layout.get_slot
    rw [if_neg (by omega)]
  · intro b hb
    unfold layout.get_index
    rw [if_neg (by omega)]
  · intro p stats
    constructor
    · intro h
      unfold get_shred_slot_index_type
      simp only [h]
    · intro sh hsh
      constructor
      · intro hlen
        unfold get_shred_slot_index_type
        simp only [hsh]
        rw [if_pos hlen]
      · intro hlen
        refine ⟨?_, ?_⟩
        · intro e he
          unfold get_shred_slot_index_type
          simp only [hsh]
          rw [if_neg hlen]
          simp only [he]
        · intro t ht
          refine ⟨?_, ?_⟩
          · intro hslot
            unfold get_shred_slot_index_type
            simp only [hsh]
            rw [if_neg hlen]
            simp only [ht, hslot]
          · intro slot hslot
            refine ⟨?_, ?_⟩
            · intro hidx
              unfold get_shred_slot_index_type
              simp only [hsh]
              rw [if_neg hlen]
              simp only [ht, hslot, hidx]
            · intro idx hidx
              refine ⟨?_, ?_⟩
              · intro hoob
                unfold get_shred_slot_index_type
                simp only [hsh]
                rw [if_neg hlen]
                simp only [ht, hslot, hidx]
                rw [if_pos hoob]
              · intro hin
                unfold get_shred_slot_index_type
                simp only [hsh]
                rw [if_neg hlen]
                simp only [ht, hslot, hidx]
                rw [if_neg (by omega)]

/-- Witness for C6: the out-of-bounds index packet is rejected with exactly
an `index_out_of_bounds` bump. -/
theorem layout_accessors_bounded_and_counted_witness :
    get_shred_slot_index_type exOobPacket exStats =
      (none, { exStats with index_out_of_bounds := exStats.index_out_of_bounds + 1 }) :=
  ((((((layout_accessors_bounded_and_counted.2.2.2.2 exOobPacket exStats).2
    (exOobPacket.data.take 77) rfl).2 (by decide)).2 ShredType.Data rfl).2
    1 (by decide)).2 4294967285 (by decide)).1 (by decide)

theorem stakeKeyLe_trans : ∀ a b c : Nat × Nat,
    stakeKeyLe a b = true → stakeKeyLe b c = true → stakeKeyLe a c = true := by
  intro a b c
  simp only [stakeKeyLe, Bool.or_eq_true, Bool.and_eq_true, decide_eq_true_eq,
    beq_iff_eq]
  omega

theorem stakeKeyLe_total : ∀ a b : Nat × Nat,
    (stakeKeyLe a b || stakeKeyLe b a) = true := by
  intro a b
  simp only [stakeKeyLe, Bool.or_eq_true, Bool.and_eq_true, decide_eq_true_eq,
    beq_iff_eq]
  omega

theorem stakeKeyLe_antisymm : ∀ a b : Nat × Nat,
    stakeKeyLe a b = true → stakeKeyLe b a = true → a = b := by
  intro ⟨a1, a2⟩ ⟨b1, b2⟩
  simp only [stakeKeyLe, Bool.or_eq_true, Bool.and_eq_true, decide_eq_true_eq,
    beq_iff_eq, Prod.mk.injEq]
  omega

theorem takeWhileStake_subset (thr : Nat) :
    ∀ (l : List (Nat × Nat)) (acc : Nat) (x : Nat × Nat),
      x ∈ takeWhileStake thr acc l → x ∈ l := by
  intro l
  induction l with
  | nil => intro acc x h; exact absurd h (by simp [takeWhileStake])
  | cons y ys ih =>
      intro acc x h
      unfold takeWhileStake at h
      by_cases hc : acc + y.2 ≤ thr
      · rw [if_pos hc] at h
        rcases List.mem_cons.mp h with h | h
        · exact h ▸ List.mem_cons_self y ys
        · exact List.mem_cons_of_mem y (ih _ x h)
      · rw [if_neg hc] at h
        exact absurd h (List.not_mem_nil x)

theorem takeWhileStake_spec (thr : Nat) :
    ∀ (l : List (Nat × Nat)) (acc : Nat),
      ∃ k, takeWhileStake thr acc l = l.take k ∧
        (0 < k → acc + stakeSum (l.take k) ≤ thr) ∧
        (∀ x, l[k]? = some x → thr < acc + stakeSum (l.take k) + x.2) := by
  intro l
  induction l with
  | nil =>
      intro acc
      exact ⟨0, by simp [takeWhileStake], by simp, by simp⟩
  | cons y ys ih =>
      intro acc
      by_cases hc : acc + y.2 ≤ thr
      · obtain ⟨k, hk, hsum, hnext⟩ := ih (acc + y.2)
        refine ⟨k + 1, ?_, ?_, ?_⟩
        · unfold takeWhileStake
          rw [if_pos hc, hk]
          rfl
        · intro _
          rcases Nat.eq_zero_or_pos k with hk0 | hkpos
          · subst hk0; simpa [stakeSum] using hc
          · have := hsum hkpos
            simp only [List.take_succ_cons, stakeSum, List.map_cons,
              List.sum_cons]
            simp only [stakeSum] at this
            omega
        · intro x hx
          simp only [List.getElem?_cons_succ] at hx
          have := hnext x hx
          simp only [List.take_succ_cons, stakeSum, List.map_cons,
            List.sum_cons]
          simp only [stakeSum] at this
          omega
      · refine ⟨0, ?_, by simp, ?_⟩
        · unfold takeWhileStake
          rw [if_neg hc]
          rfl
        · intro x hx
          simp only [List.getElem?_cons_zero, Option.some.injEq] at hx
          subst hx
          simp only [List.take_zero, stakeSum, List.map_nil, List.sum_nil]
          omega

/-- C4: the transmit partition set excludes the node's own identity, is
invariant under reordering of the stake table (deterministic thanks to the
ascending (stake, identity) sort), and consists of the longest sorted
prefix whose cumulative stake stays within the threshold — the first node
whose inclusion would push the sum over the threshold is excluded. -/
theorem cluster_partition_deterministic_and_bounded
    (stakes stakesP : List (Nat × Nat)) (self thr : Nat)
    (hperm : stakes.Perm stakesP) :
    cluster_partition stakes self thr = cluster_partition stakesP self thr ∧
    self ∉ cluster_partition stakes self thr ∧
    (∃ k, cluster_partition stakes self thr =
        ((sortedStakes stakes self).take k).map Prod.fst ∧
      stakeSum ((sortedStakes stakes self).take k) ≤ thr ∧
      (∀ x, (sortedStakes stakes self)[k]? = some x →
        thr < stakeSum ((sortedStakes stakes self).take k) + x.2)) := by
  refine ⟨?_, ?_, ?_⟩
  · have hsorted1 := List.sorted_mergeSort stakeKeyLe_trans stakeKeyLe_total
      (stakes.filter (fun n => n.1 != self))
    have hsorted2 := List.sorted_mergeSort stakeKeyLe_trans stakeKeyLe_total
      (stakesP.filter (fun n => n.1 != self))
    have hpermS : (sortedStakes stakes self).Perm (sortedStakes stakesP self) := by
      refine ((List.mergeSort_perm _ _).trans ?_).trans
        (List.mergeSort_perm _ _).symm
      exact hperm.filter _
    have heq : sortedStakes stakes self = sortedStakes stakesP self := by
      refine @List.eq_of_perm_of_sorted _ (fun a b => stakeKeyLe a b = true)
        ⟨stakeKeyLe_antisymm⟩ _ _ hpermS hsorted1 hsorted2
    unfold cluster_partition
    rw [heq]
  · intro hmem
    unfold cluster_partition at hmem
    obtain ⟨x, hx, hfst⟩ := List.mem_map.mp hmem
    have hx2 := takeWhileStake_subset thr _ 0 x hx
    have hx3 : x ∈ stakes.filter (fun n => n.1 != self) :=
      ((List.mergeSort_perm _ _).mem_iff).mp hx2
    have := (List.mem_filter.mp hx3).2
    rw [hfst] at this
    simp at this
  · obtain ⟨k, hk, hsum, hnext⟩ :=
      takeWhileStake_spec thr (sortedStakes stakes self) 0
    refine ⟨k, ?_, ?_, ?_⟩
    · unfold cluster_partition
      rw [hk]
    · rcases Nat.eq_zero_or_pos k with hk0 | hkpos
      · subst hk0; simp [stakeSum]
      · simpa using hsum hkpos
    · intro x hx
      simpa using hnext x hx

/-- Witness for C4 at a concrete stake table, its reordering, and
threshold 20 (self = 3). -/
theorem cluster_partition_deterministic_and_bounded_witness :
    cluster_partition exStakes 3 20 = cluster_partition exStakesPerm 3 20 ∧
    3 ∉ cluster_partition exStakes 3 20 :=
  ⟨(cluster_partition_deterministic_and_bounded exStakes exStakesPerm 3 20
      (by decide)).1,
   (cluster_partition_deterministic_and_bounded exStakes exStakesPerm 3 20
      (by decide)).2.1⟩

theorem routeShred_packets_congr (env : TransmitEnv) (partition : List Nat)
    (o p o0 p0 : List (List Nat)) (s : Shred)
    (ho : s.signature ∈ o ↔ s.signature ∈ o0)
    (hp : s.signature ∈ p ↔ s.signature ∈ p0) :
    (routeShred env partition o p s).1 = (routeShred env partition o0 p0 s).1 := by
  unfold routeShred
  cases (env.broadcast_addrs s).head? with
  | none => rfl
  | some addr =>
    dsimp only
    cases env.nodes.find? (fun n => n.tvu == addr) with
    | none => rfl
    | some node =>
      dsimp only
      by_cases hchk : env.check_addr node.tvu = false
      · rw [if_pos hchk, if_pos hchk]
      · rw [if_neg hchk, if_neg hchk]
        by_cases hin : s.signature ∈ o
        · rw [if_pos hin, if_pos (ho.mp hin)]
          by_cases hnp : node.id ∈ partition
          · rw [if_pos hnp, if_pos hnp]
          · rw [if_neg hnp, if_neg hnp]
        · rw [if_neg hin, if_neg (fun h => hin (ho.mpr h))]
          by_cases hip : s.signature ∈ p
          · rw [if_pos hip, if_pos (hp.mp hip)]
          · rw [if_neg hip, if_neg (fun h => hip (hp.mpr h))]

theorem routeShred_mem_sets (env : TransmitEnv) (partition : List Nat)
    (o p : List (List Nat)) (s : Shred) (sig : List Nat)
    (hne : sig ≠ s.signature) :
    (sig ∈ (routeShred env partition o p s).2.1 ↔ sig ∈ o) ∧
    (sig ∈ (routeShred env partition o p s).2.2 ↔ sig ∈ p) := by
  unfold routeShred
  cases (env.broadcast_addrs s).head? with
  | none => exact ⟨Iff.rfl, Iff.rfl⟩
  | some addr =>
    dsimp only
    cases env.nodes.find? (fun n => n.tvu == addr) with
    | none => exact ⟨Iff.rfl, Iff.rfl⟩
    | some node =>
      dsimp only
      by_cases hchk : env.check_addr node.tvu = false
      · rw [if_pos hchk]; exact ⟨Iff.rfl, Iff.rfl⟩
      · rw [if_neg hchk]
        by_cases hin : s.signature ∈ o
        · rw [if_pos hin]
          by_cases hnp : node.id ∈ partition
          · rw [if_pos hnp]
            exact ⟨List.mem_erase_of_ne hne, Iff.rfl⟩
          · rw [if_neg hnp]
            exact ⟨List.mem_erase_of_ne hne, Iff.rfl⟩
        · rw [if_neg hin]
          by_cases hip : s.signature ∈ p
          · rw [if_pos hip]
            exact ⟨Iff.rfl, List.mem_erase_of_ne hne⟩
          · rw [if_neg hip]
            exact ⟨Iff.rfl, Iff.rfl⟩

theorem transmitLoop_packets (env : TransmitEnv) (partition : List Nat) :
    ∀ (shreds : List Shred) (o p o0 p0 : List (List Nat)),
      (shreds.map Shred.signature).Nodup →
      (∀ s ∈ shreds, (s.signature ∈ o ↔ s.signature ∈ o0) ∧
        (s.signature ∈ p ↔ s.signature ∈ p0)) →
      (transmitLoop env partition shreds o p).1 =
        shreds.flatMap (fun s => (routeShred env partition o0 p0 s).1) := by
  intro shreds
  induction shreds with
  | nil => intro o p o0 p0 _ _; rfl
  | cons s rest ih =>
      intro o p o0 p0 hnodup hmem
      simp only [List.map_cons, List.nodup_cons] at hnodup
      unfold transmitLoop
      simp only [List.flatMap_cons]
      congr 1
      · exact routeShred_packets_congr env partition o p o0 p0 s
          (hmem s (List.mem_cons_self s rest)).1
          (hmem s (List.mem_cons_self s rest)).2
      · refine ih _ _ o0 p0 hnodup.2 ?_
        intro sR hsR
        have hne : sR.signature ≠ s.signature := by
          intro h
          exact hnodup.1 (h ▸ List.mem_map_of_mem Shred.signature hsR)
        have hsets := routeShred_mem_sets env partition o p s sR.signature hne
        exact ⟨hsets.1.trans (hmem sR (List.mem_cons_of_mem s hsR)).1,
          hsets.2.trans (hmem sR (List.mem_cons_of_mem s hsR)).2⟩

theorem routeShred_packets_shape (env : TransmitEnv) (partition : List Nat)
    (o p : List (List Nat)) (s : Shred) :
    ∀ pkt ∈ (routeShred env partition o p s).1,
      pkt.1 = s.payload ∧
      (s.signature ∈ o →
        ∃ node ∈ env.nodes, pkt.2 = node.tvu ∧ node.id ∉ partition) ∧
      (s.signature ∉ o → s.signature ∈ p →
        ∃ pk ∈ partition, env.contact_tvu pk = some pkt.2) ∧
      (s.signature ∉ o → s.signature ∉ p →
        ∃ node ∈ env.nodes, pkt.2 = node.tvu) := by
  intro pkt hpkt
  unfold routeShred at hpkt
  cases hhd : (env.broadcast_addrs s).head? with
  | none => simp only [hhd] at hpkt; exact absurd hpkt (List.not_mem_nil pkt)
  | some addr =>
    simp only [hhd] at hpkt
    cases hfind : env.nodes.find? (fun n => n.tvu == addr) with
    | none =>
        simp only [hfind] at hpkt
        exact absurd hpkt (List.not_mem_nil pkt)
    | some node =>
      simp only [hfind] at hpkt
      have hnodemem : node ∈ env.nodes := List.mem_of_find?_eq_some hfind
      by_cases hchk : env.check_addr node.tvu = false
      · rw [if_pos hchk] at hpkt; exact absurd hpkt (List.not_mem_nil pkt)
      · rw [if_neg hchk] at hpkt
        by_cases hin : s.signature ∈ o
        · rw [if_pos hin] at hpkt
          by_cases hnp : node.id ∈ partition
          · rw [if_pos hnp] at hpkt
            exact absurd hpkt (List.not_mem_nil pkt)
          · rw [if_neg hnp] at hpkt
            simp only [List.mem_singleton] at hpkt
            subst hpkt
            exact ⟨rfl, fun _ => ⟨node, hnodemem, rfl, hnp⟩,
              fun hno _ => absurd hin hno, fun hno _ => absurd hin hno⟩
        · rw [if_neg hin] at hpkt
          by_cases hip : s.signature ∈ p
          · rw [if_pos hip] at hpkt
            obtain ⟨pk, hpk, hmap⟩ := List.mem_filterMap.mp hpkt
            obtain ⟨t, ht, hteq⟩ := Option.map_eq_some'.mp hmap
            refine ⟨?_, fun hino => absurd hino hin, ?_, ?_⟩
            · rw [← hteq]
            · intro _ _
              refine ⟨pk, hpk, ?_⟩
              rw [ht, ← hteq]
            · intro _ hnp
              exact absurd hip hnp
          · rw [if_neg hip] at hpkt
            simp only [List.mem_singleton] at hpkt
            subst hpkt
            exact ⟨rfl, fun hino => absurd hino hin,
              fun _ hinp => absurd hinp hip,
              fun _ _ => ⟨node, hnodemem, rfl⟩⟩

theorem routeShred_packets_part (env : TransmitEnv) (partition : List Nat)
    (o p : List (List Nat)) (s : Shred)
    (hno : s.signature ∉ o) (hyes : s.signature ∈ p)
    (hreach : routeReachable env s) :
    ∀ pk ∈ partition, ∀ t, env.contact_tvu pk = some t →
      (s.payload, t) ∈ (routeShred env partition o p s).1 := by
  intro pk hpk t ht
  obtain ⟨addr, node, h1, h2, h3⟩ := hreach
  unfold routeShred
  simp only [h1, h2]
  rw [if_neg (by simp [h3]), if_neg hno, if_pos hyes]
  exact List.mem_filterMap.mpr ⟨pk, hpk, by rw [ht]; rfl⟩

/-- C3: over one transmitted batch with distinct signatures and payloads,
given a coherent cluster view (contact lookups of partition peers agree
with the peer list, distinct TVU addresses), no partition peer receives a
frame whose signature is in the original-tail set, every partition peer
with known contact info receives each partition-tail frame directly (even
though the fan-out resolver picked some other node), and the receiver
address sets of the two terminal variants are disjoint. -/
theorem transmit_partition_disjoint_routing
    (env : TransmitEnv) (shreds : List Shred)
    (origSet partSet : List (List Nat))
    (hsig : (shreds.map Shred.signature).Nodup)
    (hpay : (shreds.map Shred.payload).Nodup)
    (hdisj : ∀ sig ∈ origSet, sig ∉ partSet)
    (hcontact : ∀ pk ∈ cluster_partition env.stakes env.self_pubkey
        env.stake_partition, ∀ t, env.contact_tvu pk = some t →
        ∃ node ∈ env.nodes, node.id = pk ∧ node.tvu = t)
    (htvu : (env.nodes.map Node.tvu).Nodup) :
    (∀ s ∈ shreds, s.signature ∈ origSet →
      ∀ pk ∈ cluster_partition env.stakes env.self_pubkey env.stake_partition,
        ∀ t, env.contact_tvu pk = some t →
        (s.payload, t) ∉ (transmitPackets env shreds origSet partSet).1) ∧
    (∀ s ∈ shreds, s.signature ∈ partSet → routeReachable env s →
      ∀ pk ∈ cluster_partition env.stakes env.self_pubkey env.stake_partition,
        ∀ t, env.contact_tvu pk = some t →
        (s.payload, t) ∈ (transmitPackets env shreds origSet partSet).1) ∧
    (∀ s ∈ shreds, ∀ sP ∈ shreds, s.signature ∈ origSet →
      sP.signature ∈ partSet → ∀ a,
        (s.payload, a) ∈ (transmitPackets env shreds origSet partSet).1 →
        (sP.payload, a) ∉ (transmitPackets env shreds origSet partSet).1) := by
  have hflat : (transmitPackets env shreds origSet partSet).1 =
      shreds.flatMap (fun s =>
        (routeShred env
          (cluster_partition env.stakes env.self_pubkey env.stake_partition)
          origSet partSet s).1) :=
    transmitLoop_packets env _ shreds origSet partSet origSet partSet hsig
      (fun s _ => ⟨Iff.rfl, Iff.rfl⟩)
  refine ⟨?_, ?_, ?_⟩
  · intro s hs hin pk hpk t ht hmem
    rw [hflat] at hmem
    obtain ⟨sB, hsB, hpkt⟩ := List.mem_flatMap.mp hmem
    have hshape := routeShred_packets_shape env _ origSet partSet sB _ hpkt
    have hpays : s.payload = sB.payload := hshape.1
    have hseq : s = sB :=
      List.inj_on_of_nodup_map hpay hs hsB hpays
    subst hseq
    obtain ⟨node, hnode, htvueq, hnotp⟩ := hshape.2.1 hin
    obtain ⟨nodeC, hnodeC, hid, htvuC⟩ := hcontact pk hpk t ht
    have : node = nodeC := by
      refine List.inj_on_of_nodup_map htvu hnode hnodeC ?_
      show node.tvu = nodeC.tvu
      rw [← htvueq, htvuC]
    rw [this, hid] at hnotp
    exact hnotp hpk
  · intro s hs hin hreach pk hpk t ht
    rw [hflat]
    refine List.mem_flatMap.mpr ⟨s, hs, ?_⟩
    exact routeShred_packets_part env _ origSet partSet s
      (fun hino => hdisj _ hino hin) hin hreach pk hpk t ht
  · intro s hs sP hsP hso hsp a hmem1 hmem2
    rw [hflat] at hmem1 hmem2
    obtain ⟨s1, hs1, hpkt1⟩ := List.mem_flatMap.mp hmem1
    obtain ⟨s2, hs2, hpkt2⟩ := List.mem_flatMap.mp hmem2
    have hshape1 := routeShred_packets_shape env _ origSet partSet s1 _ hpkt1
    have hshape2 := routeShred_packets_shape env _ origSet partSet s2 _ hpkt2
    have heq1 : s = s1 := List.inj_on_of_nodup_map hpay hs hs1 hshape1.1
    have heq2 : sP = s2 := List.inj_on_of_nodup_map hpay hsP hs2 hshape2.1
    subst heq1
    subst heq2
    obtain ⟨node, hnode, htvueq, hnotp⟩ := hshape1.2.1 hso
    obtain ⟨pk, hpk, hct⟩ :=
      hshape2.2.2.1 (fun hino => hdisj _ hino hsp) hsp
    obtain ⟨nodeC, hnodeC, hid, htvuC⟩ := hcontact pk hpk _ hct
    have hnn : node = nodeC := by
      refine List.inj_on_of_nodup_map htvu hnode hnodeC ?_
      show node.tvu = nodeC.tvu
      rw [← htvueq, htvuC]
    rw [hnn, hid] at hnotp
    exact hnotp hpk

/-- Witness for C3: in the concrete environment, the partition peer (id 2,
tvu 12) never receives the original-tail shred and does receive the
partition-tail shred directly. -/
theorem transmit_partition_disjoint_routing_witness :
    (Shred.payload exOrigShred, 12) ∉
      (transmitPackets exEnv [exOrigShred, exPartShred] [[1]] [[2]]).1 ∧
    (Shred.payload exPartShred, 12) ∈
      (transmitPackets exEnv [exOrigShred, exPartShred] [[1]] [[2]]).1 := by
  have hsorted : sortedStakes exEnv.stakes exEnv.self_pubkey =
      [(2, 5), (1, 10)] := by
    refine @List.eq_of_perm_of_sorted _ (fun a b => stakeKeyLe a b = true)
      ⟨stakeKeyLe_antisymm⟩ _ _ ?_ ?_ ?_
    · refine (List.mergeSort_perm _ _).trans ?_
      decide
    · exact List.sorted_mergeSort stakeKeyLe_trans stakeKeyLe_total _
    · decide
  have hP : cluster_partition exEnv.stakes exEnv.self_pubkey
      exEnv.stake_partition = [2] := by
    unfold cluster_partition
    rw [hsorted]
    decide
  have hcontact : ∀ pk ∈ cluster_partition exEnv.stakes exEnv.self_pubkey
      exEnv.stake_partition, ∀ t, exEnv.contact_tvu pk = some t →
      ∃ node ∈ exEnv.nodes, node.id = pk ∧ node.tvu = t := by
    rw [hP]
    intro pk hpk t ht
    simp only [List.mem_singleton] at hpk
    subst hpk
    have ht2 : t = 12 := by
      have h12 : exEnv.contact_tvu 2 = some 12 := rfl
      rw [h12] at ht
      exact (Option.some.inj ht).symm
    subst ht2
    exact ⟨{ id := 2, tvu := 12 }, by decide, rfl, rfl⟩
  have h := transmit_partition_disjoint_routing exEnv
    [exOrigShred, exPartShred] [[1]] [[2]] (by decide) (by decide)
    (by decide) hcontact (by decide)
  constructor
  · exact h.1 exOrigShred (by simp) (by decide) 2 (by rw [hP]; simp) 12 rfl
  · exact h.2.1 exPartShred (by simp) (by decide)
      ⟨11, { id := 1, tvu := 11 }, rfl, rfl, rfl⟩ 2 (by rw [hP]; simp) 12 rfl

theorem rightPadZeros_eq_self (l : List Nat) (n : Nat) (h : l.length = n) :
    rightPadZeros n l = l := by
  simp [rightPadZeros, h]

theorem rightPadZeros_length (l : List Nat) (n : Nat) (h : l.length ≤ n) :
    (rightPadZeros n l).length = n := by
  simp only [rightPadZeros, List.length_append, List.length_replicate]
  omega

theorem readBytes_append (n : Nat) (x r : List Nat) (h : x.length = n) :
    readBytes n (x ++ r) = some (x, r) := by
  unfold readBytes
  rw [if_pos (by simp [h])]
  subst h
  rw [List.take_left, List.drop_left]

theorem shredVariantFromByte_toByte (v : ShredVariant) :
    shredVariantFromByte v.toByte = .ok v := by
  cases v <;> rfl

theorem serializeCommonHeader_length (h : ShredCommonHeader)
    (hsig : h.signature.length = 64) :
    (serializeCommonHeader h).length = 83 := by
  simp [serializeCommonHeader, leBytes_length, hsig]

theorem serializeDataHeader_length (h : DataShredHeader) :
    (serializeDataHeader h).length = 5 := by
  simp [serializeDataHeader, leBytes_length]

theorem serializeCodingHeader_length (h : CodingShredHeader) :
    (serializeCodingHeader h).length = 6 := by
  simp [serializeCodingHeader, leBytes_length]

theorem parseCommonHeader_roundtrip (common : ShredCommonHeader)
    (rest : List Nat) (hsig : common.signature.length = 64)
    (hslot : common.slot < 256 ^ 8) (hidx : common.index < 256 ^ 4)
    (hver : common.version < 256 ^ 2) (hfec : common.fec_set_index < 256 ^ 4) :
    parseCommonHeader (serializeCommonHeader common ++ rest) =
      .ok (common, rest) := by
  obtain ⟨sig, variant, slot, index, version, fec⟩ := common
  simp only at hsig hslot hidx hver hfec
  unfold serializeCommonHeader parseCommonHeader
  simp only [SIZE_OF_SIGNATURE, List.cons_append, List.append_assoc]
  simp only [readBytes_append _ _ _ hsig, shredVariantFromByte_toByte,
    readBytes_append _ _ _ (leBytes_length 8 slot),
    readBytes_append _ _ _ (leBytes_length 4 index),
    readBytes_append _ _ _ (leBytes_length 2 version),
    readBytes_append _ _ _ (leBytes_length 4 fec),
    leVal_leBytes]
  rw [Nat.mod_eq_of_lt hslot, Nat.mod_eq_of_lt hidx, Nat.mod_eq_of_lt hver,
    Nat.mod_eq_of_lt hfec]

theorem parseDataHeader_roundtrip (dh : DataShredHeader) (rest : List Nat)
    (hpo : dh.parent_offset < 256 ^ 2) (hfl : dh.flags < 256)
    (hsz : dh.size < 256 ^ 2) :
    parseDataHeader (serializeDataHeader dh ++ rest) = .ok (dh, rest) := by
  obtain ⟨po, fl, sz⟩ := dh
  simp only at hpo hfl hsz
  unfold serializeDataHeader parseDataHeader
  simp only [List.cons_append, List.append_assoc]
  simp only [readBytes_append _ _ _ (leBytes_length 2 po),
    readBytes_append _ _ _ (leBytes_length 2 sz), leVal_leBytes]
  rw [Nat.mod_eq_of_lt hpo, Nat.mod_eq_of_lt hsz, Nat.mod_eq_of_lt hfl]

theorem parseCodingHeader_roundtrip (ch : CodingShredHeader) (rest : List Nat)
    (hnd : ch.num_data_shreds < 256 ^ 2) (hnc : ch.num_coding_shreds < 256 ^ 2)
    (hpos : ch.position < 256 ^ 2) :
    parseCodingHeader (serializeCodingHeader ch ++ rest) = .ok (ch, rest) := by
  obtain ⟨nd, nc, pos⟩ := ch
  simp only at hnd hnc hpos
  unfold serializeCodingHeader parseCodingHeader
  simp only [List.cons_append, List.append_assoc]
  simp only [readBytes_append _ _ _ (leBytes_length 2 nd),
    readBytes_append _ _ _ (leBytes_length 2 nc),
    readBytes_append _ _ _ (leBytes_length 2 pos), leVal_leBytes]
  rw [Nat.mod_eq_of_lt hnd, Nat.mod_eq_of_lt hnc, Nat.mod_eq_of_lt hpos]

theorem dropPrefix (x y : List Nat) (k : Nat) (h : x.length = k) :
    (x ++ y).drop k = y := by
  subst h
  exact List.drop_left x y

theorem takePrefix (x y : List Nat) (k : Nat) (h : x.length = k) :
    (x ++ y).take k = x := by
  subst h
  exact List.take_left x y

theorem dropPrefixCons (x : List Nat) (a : Nat) (y : List Nat) (k : Nat)
    (h : x.length = k) : (x ++ a :: y).drop (k + 1) = y := by
  have h2 : x ++ a :: y = (x ++ [a]) ++ y := by simp
  rw [h2]
  exact dropPrefix _ _ _ (by simp [h])

theorem getPrefixCons (x : List Nat) (a : Nat) (y : List Nat) (k : Nat)
    (h : x.length = k) : (x ++ a :: y)[k]? = some a := by
  subst h
  rw [List.getElem?_append, if_neg (by omega)]
  simp

theorem layout_accessors_serialized (common : ShredCommonHeader)
    (T : List Nat) (hsig : common.signature.length = 64)
    (hslot : common.slot < 256 ^ 8) (hidx : common.index < 256 ^ 4) :
    layout.get_shred_variant (serializeCommonHeader common ++ T) =
      .ok common.shred_variant ∧
    layout.get_slot (serializeCommonHeader common ++ T) = some common.slot ∧
    layout.get_index (serializeCommonHeader common ++ T) = some common.index := by
  obtain ⟨sig, variant, slot, index, version, fec⟩ := common
  simp only at hsig hslot hidx
  have hb : serializeCommonHeader ⟨sig, variant, slot, index, version, fec⟩ ++ T
      = sig ++ (variant.toByte :: (leBytes 8 slot ++ (leBytes 4 index ++
        (leBytes 2 version ++ (leBytes 4 fec ++ T))))) := by
    simp [serializeCommonHeader, List.append_assoc]
  rw [hb]
  have hlen : (sig ++ (variant.toByte :: (leBytes 8 slot ++ (leBytes 4 index ++
      (leBytes 2 version ++ (leBytes 4 fec ++ T)))))).length = 83 + T.length := by
    simp [leBytes_length, hsig]
    omega
  have hd65 : (sig ++ (variant.toByte :: (leBytes 8 slot ++ (leBytes 4 index ++
      (leBytes 2 version ++ (leBytes 4 fec ++ T)))))).drop 65 =
      leBytes 8 slot ++ (leBytes 4 index ++ (leBytes 2 version ++
        (leBytes 4 fec ++ T))) := by
    exact dropPrefixCons _ _ _ _ hsig
  refine ⟨?_, ?_, ?_⟩
  · unfold layout.get_shred_variant OFFSET_OF_SHRED_VARIANT
    rw [getPrefixCons _ _ _ _ hsig]
    exact shredVariantFromByte_toByte variant
  · unfold layout.get_slot OFFSET_OF_SHRED_SLOT
    rw [if_pos (by rw [hlen]; omega), hd65,
      takePrefix _ _ _ (leBytes_length 8 slot), leVal_leBytes,
      Nat.mod_eq_of_lt hslot]
  · unfold layout.get_index OFFSET_OF_SHRED_INDEX
    rw [if_pos (by rw [hlen]; omega)]
    have hd73 : (sig ++ (variant.toByte :: (leBytes 8 slot ++ (leBytes 4 index ++
        (leBytes 2 version ++ (leBytes 4 fec ++ T)))))).drop 73 =
        leBytes 4 index ++ (leBytes 2 version ++ (leBytes 4 fec ++ T)) := by
      have h73 : (73 : Nat) = 65 + 8 := rfl
      rw [h73, ← List.drop_drop, hd65, dropPrefix _ _ _ (leBytes_length 8 slot)]
    rw [hd73, takePrefix _ _ _ (leBytes_length 4 index), leVal_leBytes,
      Nat.mod_eq_of_lt hidx]

theorem rightPad_concat (A B data : List Nat) (hA : A.length = 83)
    (hB : B.length = 5) (hdata : data.length ≤ 1140) :
    rightPadZeros 1228 (A ++ (B ++ data)) =
      A ++ (B ++ (data ++ List.replicate (1140 - data.length) 0)) := by
  unfold rightPadZeros
  simp only [List.length_append, hA, hB, List.append_assoc]
  have h : 1228 - (83 + (5 + data.length)) = 1140 - data.length := by omega
  rw [h]

theorem rightPad_concat6 (A B data : List Nat) (hA : A.length = 83)
    (hB : B.length = 6) (hdata : data.length ≤ 1139) :
    rightPadZeros 1228 (A ++ (B ++ data)) =
      A ++ (B ++ (data ++ List.replicate (1139 - data.length) 0)) := by
  unfold rightPadZeros
  simp only [List.length_append, hA, hB, List.append_assoc]
  have h : 1228 - (83 + (6 + data.length)) = 1139 - data.length := by omega
  rw [h]

theorem flagsByte_lt (flags rt : Nat) (hflags : flags < 256) :
    flags ||| min rt SHRED_TICK_REFERENCE_MASK < 256 := by
  have h1 : min rt SHRED_TICK_REFERENCE_MASK < 256 := by
    have := Nat.min_le_right rt SHRED_TICK_REFERENCE_MASK
    unfold SHRED_TICK_REFERENCE_MASK at *
    omega
  have h256 : (256 : Nat) = 2 ^ 8 := by norm_num
  rw [h256] at hflags h1 ⊢
  exact Nat.or_lt_two_pow hflags h1

theorem dataFromPayload_of_parts (C : ShredCommonHeader) (D : DataShredHeader)
    (T : List Nat)
    (hsig : C.signature.length = 64)
    (hvariant : C.shred_variant = .LegacyData)
    (hslot : C.slot < 256 ^ 8) (hidx4 : C.index < 256 ^ 4)
    (hver : C.version < 256 ^ 2) (hfec : C.fec_set_index < 256 ^ 4)
    (hpo : D.parent_offset < 256 ^ 2) (hfl256 : D.flags < 256)
    (hsz : D.size < 256 ^ 2) (hTlen : T.length = 1140)
    (hidx : C.index < MAX_DATA_SHREDS_PER_SLOT)
    (hpar : ¬(D.parent_offset = 0 ∧ C.slot ≠ 0))
    (hpar2 : D.parent_offset ≤ C.slot)
    (hszB : SIZE_OF_DATA_SHRED_HEADERS ≤ D.size) (hszT : D.size ≤ 1228)
    (hflinv : ¬(D.flags &&& LAST_SHRED_IN_SLOT ≠ 0 ∧
      D.flags &&& DATA_COMPLETE_SHRED = 0)) :
    dataFromPayload (serializeCommonHeader C ++ (serializeDataHeader D ++ T)) =
      .ok { common_header := C, data_header := D,
            payload := serializeCommonHeader C ++ (serializeDataHeader D ++ T) } := by
  have hA := serializeCommonHeader_length C hsig
  have hB := serializeDataHeader_length D
  have hplen : (serializeCommonHeader C ++ (serializeDataHeader D ++ T)).length
      = 1228 := by
    simp [hA, hB, hTlen]
  have hparse1 := parseCommonHeader_roundtrip C (serializeDataHeader D ++ T)
    hsig hslot hidx4 hver hfec
  have hparse2 := parseDataHeader_roundtrip D T hpo hfl256 hsz
  have htake : (serializeCommonHeader C ++ (serializeDataHeader D ++ T)).take 1228
      = serializeCommonHeader C ++ (serializeDataHeader D ++ T) := by
    rw [← hplen]
    exact List.take_length _
  have hfix : rightPadZeros 1228
      ((serializeCommonHeader C ++ (serializeDataHeader D ++ T)).take 1228) =
      serializeCommonHeader C ++ (serializeDataHeader D ++ T) := by
    rw [htake]
    exact rightPadZeros_eq_self _ _ hplen
  have hsan : sanitizeData
      { common_header := C, data_header := D,
        payload := serializeCommonHeader C ++ (serializeDataHeader D ++ T) } =
      .ok () := by
    unfold sanitizeData
    dsimp only
    rw [if_neg (by
      show ¬(serializeCommonHeader C ++ (serializeDataHeader D ++ T)).length ≠
        SHRED_PAYLOAD_SIZE
      rw [hplen]
      unfold SHRED_PAYLOAD_SIZE
      omega)]
    rw [if_neg (by omega)]
    have hpsd : ShredData.parent_slot
        { common_header := C, data_header := D,
          payload := serializeCommonHeader C ++ (serializeDataHeader D ++ T) } =
        .ok (C.slot - D.parent_offset) := by
      unfold ShredData.parent_slot
      dsimp only
      rw [if_neg hpar, if_neg (by omega)]
    simp only [hpsd]
    rw [if_neg (by
      rw [hplen]
      unfold SIZE_OF_DATA_SHRED_HEADERS at hszB ⊢
      omega)]
    rw [if_neg hflinv]
  unfold dataFromPayload
  simp only [hparse1]
  rw [if_neg (by simp [hvariant])]
  simp only [hparse2, SHRED_PAYLOAD_SIZE, hfix, hsan]

theorem codeFromPayload_of_parts (C : ShredCommonHeader) (H : CodingShredHeader)
    (T : List Nat)
    (hsig : C.signature.length = 64)
    (hvariant : C.shred_variant = .LegacyCode)
    (hslot : C.slot < 256 ^ 8) (hidx4 : C.index < 256 ^ 4)
    (hver : C.version < 256 ^ 2) (hfec : C.fec_set_index < 256 ^ 4)
    (hnd : H.num_data_shreds < 256 ^ 2) (hnc : H.num_coding_shreds < 256 ^ 2)
    (hpos : H.position < 256 ^ 2) (hTlen : T.length = 1139)
    (hncB : H.num_coding_shreds ≤ 8 * MAX_DATA_SHREDS_PER_FEC_BLOCK) :
    codeFromPayload (serializeCommonHeader C ++ (serializeCodingHeader H ++ T)) =
      .ok { common_header := C, coding_header := H,
            payload := serializeCommonHeader C ++ (serializeCodingHeader H ++ T) } := by
  have hA := serializeCommonHeader_length C hsig
  have hB := serializeCodingHeader_length H
  have hplen : (serializeCommonHeader C ++ (serializeCodingHeader H ++ T)).length
      = 1228 := by
    simp [hA, hB, hTlen]
  have hparse1 := parseCommonHeader_roundtrip C (serializeCodingHeader H ++ T)
    hsig hslot hidx4 hver hfec
  have hparse2 := parseCodingHeader_roundtrip H T hnd hnc hpos
  have htake : (serializeCommonHeader C ++ (serializeCodingHeader H ++ T)).take 1228
      = serializeCommonHeader C ++ (serializeCodingHeader H ++ T) := by
    rw [← hplen]
    exact List.take_length _
  have hfix : rightPadZeros 1228
      ((serializeCommonHeader C ++ (serializeCodingHeader H ++ T)).take 1228) =
      serializeCommonHeader C ++ (serializeCodingHeader H ++ T) := by
    rw [htake]
    exact rightPadZeros_eq_self _ _ hplen
  have hsan : sanitizeCode
      { common_header := C, coding_header := H,
        payload := serializeCommonHeader C ++ (serializeCodingHeader H ++ T) } =
      .ok () := by
    unfold sanitizeCode
    dsimp only
    rw [if_neg (by
      rw [hplen]
      unfold SHRED_PAYLOAD_SIZE
      omega)]
    rw [if_neg (by omega)]
  unfold codeFromPayload
  simp only [hparse1]
  rw [if_neg (by simp [hvariant])]
  simp only [hparse2, SHRED_PAYLOAD_SIZE, hfix, hsan]

theorem new_from_data_roundtrip (slot index po : Nat) (data : List Nat)
    (flags rt version fec : Nat)
    (hslot : slot < 256 ^ 8) (hidx : index < MAX_DATA_SHREDS_PER_SLOT)
    (hpo : po < 256 ^ 2) (hver : version < 256 ^ 2) (hfec : fec < 256 ^ 4)
    (hflags : flags < 256)
    (hpar : ¬(po = 0 ∧ slot ≠ 0)) (hpar2 : po ≤ slot)
    (hflinv : ¬((flags ||| min rt SHRED_TICK_REFERENCE_MASK) &&&
        LAST_SHRED_IN_SLOT ≠ 0 ∧
      (flags ||| min rt SHRED_TICK_REFERENCE_MASK) &&&
        DATA_COMPLETE_SHRED = 0))
    (hdata : data.length ≤ LEGACY_SHRED_DATA_CAPACITY) :
    new_from_serialized_shred
        (new_from_data slot index po data flags rt version fec).payload =
      .ok (.ShredData (new_from_data slot index po data flags rt version fec)) ∧
    layout.get_shred_variant
        (new_from_data slot index po data flags rt version fec).payload =
      .ok .LegacyData ∧
    layout.get_slot
        (new_from_data slot index po data flags rt version fec).payload =
      some slot ∧
    layout.get_index
        (new_from_data slot index po data flags rt version fec).payload =
      some index := by
  have hidx4 : index < 256 ^ 4 := by
    unfold MAX_DATA_SHREDS_PER_SLOT at hidx
    omega
  have hdata' : data.length ≤ 1140 := by
    unfold LEGACY_SHRED_DATA_CAPACITY at hdata
    omega
  have hpay : (new_from_data slot index po data flags rt version fec).payload =
      serializeCommonHeader
        (new_from_data slot index po data flags rt version fec).common_header ++
      (serializeDataHeader
        (new_from_data slot index po data flags rt version fec).data_header ++
        (data ++ List.replicate (1140 - data.length) 0)) := by
    simp only [new_from_data, SHRED_PAYLOAD_SIZE]
    exact rightPad_concat _ _ _
      (serializeCommonHeader_length _ (by simp [SIZE_OF_SIGNATURE]))
      (serializeDataHeader_length _) hdata'
  have hTlen : (data ++ List.replicate (1140 - data.length) 0).length = 1140 := by
    simp
    omega
  have hsig : (new_from_data slot index po data flags rt version fec).common_header.signature.length = 64 := by
    simp [new_from_data, SIZE_OF_SIGNATURE]
  have hacc := layout_accessors_serialized
    (new_from_data slot index po data flags rt version fec).common_header
    (serializeDataHeader
        (new_from_data slot index po data flags rt version fec).data_header ++
      (data ++ List.replicate (1140 - data.length) 0))
    hsig hslot hidx4
  have hparse := dataFromPayload_of_parts
    (new_from_data slot index po data flags rt version fec).common_header
    (new_from_data slot index po data flags rt version fec).data_header
    (data ++ List.replicate (1140 - data.length) 0)
    hsig rfl hslot hidx4 hver hfec hpo (flagsByte_lt flags rt hflags)
    (by
      show SIZE_OF_DATA_SHRED_HEADERS + data.length < 256 ^ 2
      unfold SIZE_OF_DATA_SHRED_HEADERS
      omega)
    hTlen hidx hpar hpar2
    (by
      show SIZE_OF_DATA_SHRED_HEADERS ≤ SIZE_OF_DATA_SHRED_HEADERS + data.length
      omega)
    (by
      show SIZE_OF_DATA_SHRED_HEADERS + data.length ≤ 1228
      unfold SIZE_OF_DATA_SHRED_HEADERS
      omega)
    hflinv
  refine ⟨?_, ?_, ?_, ?_⟩
  · unfold new_from_serialized_shred
    rw [hpay]
    simp only [hacc.1]
    rw [hparse]
    rw [← hpay]
    rfl
  · rw [hpay]
    exact hacc.1
  · rw [hpay]
    exact hacc.2.1
  · rw [hpay]
    exact hacc.2.2

theorem new_from_parity_shard_roundtrip (slot index : Nat)
    (parity_shard : List Nat) (fec nd nc pos version : Nat)
    (hslot : slot < 256 ^ 8) (hidx4 : index < 256 ^ 4)
    (hver : version < 256 ^ 2) (hfec : fec < 256 ^ 4)
    (hnd : nd < 256 ^ 2) (hpos : pos < 256 ^ 2)
    (hncB : nc ≤ 8 * MAX_DATA_SHREDS_PER_FEC_BLOCK)
    (hshard : parity_shard.length ≤ 1139) :
    new_from_serialized_shred
        (new_from_parity_shard slot index parity_shard fec nd nc pos version).payload =
      .ok (.ShredCode
        (new_from_parity_shard slot index parity_shard fec nd nc pos version)) ∧
    layout.get_shred_variant
        (new_from_parity_shard slot index parity_shard fec nd nc pos version).payload =
      .ok .LegacyCode ∧
    layout.get_slot
        (new_from_parity_shard slot index parity_shard fec nd nc pos version).payload =
      some slot ∧
    layout.get_index
        (new_from_parity_shard slot index parity_shard fec nd nc pos version).payload =
      some index := by
  have hnc2 : nc < 256 ^ 2 := by
    unfold MAX_DATA_SHREDS_PER_FEC_BLOCK at hncB
    omega
  have hpay : (new_from_parity_shard slot index parity_shard fec nd nc pos version).payload =
      serializeCommonHeader
        (new_from_parity_shard slot index parity_shard fec nd nc pos version).common_header ++
      (serializeCodingHeader
        (new_from_parity_shard slot index parity_shard fec nd nc pos version).coding_header ++
        (parity_shard ++ List.replicate (1139 - parity_shard.length) 0)) := by
    simp only [new_from_parity_shard, SHRED_PAYLOAD_SIZE]
    exact rightPad_concat6 _ _ _
      (serializeCommonHeader_length _ (by simp [SIZE_OF_SIGNATURE]))
      (serializeCodingHeader_length _) hshard
  have hTlen : (parity_shard ++
      List.replicate (1139 - parity_shard.length) 0).length = 1139 := by
    simp
    omega
  have hsig : (new_from_parity_shard slot index parity_shard fec nd nc pos
      version).common_header.signature.length = 64 := by
    simp [new_from_parity_shard, SIZE_OF_SIGNATURE]
  have hacc := layout_accessors_serialized
    (new_from_parity_shard slot index parity_shard fec nd nc pos version).common_header
    (serializeCodingHeader
        (new_from_parity_shard slot index parity_shard fec nd nc pos version).coding_header ++
      (parity_shard ++ List.replicate (1139 - parity_shard.length) 0))
    hsig hslot hidx4
  have hparse := codeFromPayload_of_parts
    (new_from_parity_shard slot index parity_shard fec nd nc pos version).common_header
    (new_from_parity_shard slot index parity_shard fec nd nc pos version).coding_header
    (parity_shard ++ List.replicate (1139 - parity_shard.length) 0)
    hsig rfl hslot hidx4 hver hfec hnd hnc2 hpos hTlen hncB
  refine ⟨?_, ?_, ?_, ?_⟩
  · unfold new_from_serialized_shred
    rw [hpay]
    simp only [hacc.1]
    rw [hparse]
    rw [← hpay]
    rfl
  · rw [hpay]
    exact hacc.1
  · rw [hpay]
    exact hacc.2.1
  · rw [hpay]
    exact hacc.2.2

/-- C5: for every valid data or coding shred constructed via the codec,
parsing its serialized payload with `new_from_serialized_shred` yields a
shred equal to the original, and the zero-copy layout accessors
(`get_slot`, `get_index`, `get_shred_variant`) on the serialized bytes
agree with the structured accessors on the original value. -/
theorem codec_serialize_roundtrip :
    (∀ slot index po data flags rt version fec,
      slot < 256 ^ 8 → index < MAX_DATA_SHREDS_PER_SLOT → po < 256 ^ 2 →
      version < 256 ^ 2 → fec < 256 ^ 4 → flags < 256 →
      ¬(po = 0 ∧ slot ≠ 0) → po ≤ slot →
      ¬((flags ||| min rt SHRED_TICK_REFERENCE_MASK) &&&
          LAST_SHRED_IN_SLOT ≠ 0 ∧
        (flags ||| min rt SHRED_TICK_REFERENCE_MASK) &&&
          DATA_COMPLETE_SHRED = 0) →
      data.length ≤ LEGACY_SHRED_DATA_CAPACITY →
      (new_from_serialized_shred (Shred.payload
          (.ShredData (new_from_data slot index po data flags rt version fec))) =
        .ok (.ShredData (new_from_data slot index po data flags rt version fec)) ∧
      layout.get_shred_variant (Shred.payload
          (.ShredData (new_from_data slot index po data flags rt version fec))) =
        .ok (Shred.common_header
          (.ShredData (new_from_data slot index po data flags rt version fec))).shred_variant ∧
      layout.get_slot (Shred.payload
          (.ShredData (new_from_data slot index po data flags rt version fec))) =
        some (Shred.slot
          (.ShredData (new_from_data slot index po data flags rt version fec))) ∧
      layout.get_index (Shred.payload
          (.ShredData (new_from_data slot index po data flags rt version fec))) =
        some (Shred.index
          (.ShredData (new_from_data slot index po data flags rt version fec))))) ∧
    (∀ slot index parity_shard fec nd nc pos version,
      slot < 256 ^ 8 → index < 256 ^ 4 → version < 256 ^ 2 → fec < 256 ^ 4 →
      nd < 256 ^ 2 → pos < 256 ^ 2 → nc ≤ 8 * MAX_DATA_SHREDS_PER_FEC_BLOCK →
      parity_shard.length ≤ 1139 →
      (new_from_serialized_shred (Shred.payload
          (.ShredCode (new_from_parity_shard slot index parity_shard fec nd nc pos version))) =
        .ok (.ShredCode (new_from_parity_shard slot index parity_shard fec nd nc pos version)) ∧
      layout.get_shred_variant (Shred.payload
          (.ShredCode (new_from_parity_shard slot index parity_shard fec nd nc pos version))) =
        .ok (Shred.common_header
          (.ShredCode (new_from_parity_shard slot index parity_shard fec nd nc pos version))).shred_variant ∧
      layout.get_slot (Shred.payload
          (.ShredCode (new_from_parity_shard slot index parity_shard fec nd nc pos version))) =
        some (Shred.slot
          (.ShredCode (new_from_parity_shard slot index parity_shard fec nd nc pos version))) ∧
      layout.get_index (Shred.payload
          (.ShredCode (new_from_parity_shard slot index parity_shard fec nd nc pos version))) =
        some (Shred.index
          (.ShredCode (new_from_parity_shard slot index parity_shard fec nd nc pos version))))) := by
  constructor
  · intro slot index po data flags rt version fec hslot hidx hpo hver hfec
      hflags hpar hpar2 hflinv hdata
    obtain ⟨h1, h2, h3, h4⟩ := new_from_data_roundtrip slot index po data
      flags rt version fec hslot hidx hpo hver hfec hflags hpar hpar2
      hflinv hdata
    exact ⟨h1, h2, h3, h4⟩
  · intro slot index parity_shard fec nd nc pos version hslot hidx hver hfec
      hnd hpos hncB hshard
    obtain ⟨h1, h2, h3, h4⟩ := new_from_parity_shard_roundtrip slot index
      parity_shard fec nd nc pos version hslot hidx hver hfec hnd hpos
      hncB hshard
    exact ⟨h1, h2, h3, h4⟩

/-- Witness for C5: both concrete codec-constructed shreds survive the
serialize/parse round trip. -/
theorem codec_serialize_roundtrip_witness :
    new_from_serialized_shred (Shred.payload (.ShredData exRtData)) =
      .ok (.ShredData exRtData) ∧
    new_from_serialized_shred (Shred.payload (.ShredCode exRtCode)) =
      .ok (.ShredCode exRtCode) :=
  ⟨(codec_serialize_roundtrip.1 100 5 1 [1, 2, 3] 192 37 2 4 (by decide)
      (by decide) (by decide) (by decide) (by decide) (by decide) (by decide)
      (by decide) (by decide) (by decide)).1,
   (codec_serialize_roundtrip.2 8 2 [9, 9] 10 30 4 1 200 (by decide)
      (by decide) (by decide) (by decide) (by decide) (by decide) (by decide)
      (by decide)).1⟩

theorem assembleRunOutput_msgs (st : DupState) (b : Option (List Shred))
    (lp : Option (List Shred × List Shred)) (o p : List Shred)
    (h : (assembleRunOutput st b lp).last_pair = some (o, p)) :
    (assembleRunOutput st b lp).bulk.isSome = true ∧
    (assembleRunOutput st b lp).blockstore_msgs =
      (assembleRunOutput st b lp).bulk.toList ++ [o] ∧
    (assembleRunOutput st b lp).socket_msgs =
      (assembleRunOutput st b lp).bulk.toList ++ [o, p] := by
  cases b with
  | none => simp [assembleRunOutput] at h
  | some bulk =>
      cases lp with
      | none => simp [assembleRunOutput] at h
      | some op =>
          obtain ⟨oB, pB⟩ := op
          simp only [assembleRunOutput] at h ⊢
          simp only [Option.some.injEq, Prod.mk.injEq] at h
          obtain ⟨ho, hp⟩ := h
          subst ho
          subst hp
          simp

theorem runStep_shape (kp : Nat) (st : DupState) (rr : ReceiveResults)
    (out : RunOutput) (h : runStep kp st rr = some out) :
    ∃ stA b lp, out = assembleRunOutput stA b lp := by
  unfold runStep at h
  obtain ⟨pre, hpre, hout⟩ := Option.map_eq_some'.mp h
  exact ⟨pre.1, pre.2.1, pre.2.2, hout.symm⟩

/-- C2 (amended): whenever `run` completes a forked slot, the recorder
(blockstore) channel receives the bulk batch first and then the original
terminal batch, while the partition terminal batch is sent only on the
socket channel (after the bulk and original batches). -/
theorem run_recorder_message_order (kp : Nat) (st : DupState)
    (rr : ReceiveResults) (out : RunOutput) (o p : List Shred)
    (h : runStep kp st rr = some out) (hlp : out.last_pair = some (o, p)) :
    out.bulk.isSome = true ∧
    out.blockstore_msgs = out.bulk.toList ++ [o] ∧
    out.socket_msgs = out.bulk.toList ++ [o, p] := by
  obtain ⟨stA, b, lp, rfl⟩ := runStep_shape kp st rr out h
  exact assembleRunOutput_msgs stA b lp o p hlp

/-- Witness for the amended C2 at the concrete forking input. -/
theorem run_recorder_message_order_witness :
    exRunOut.bulk.isSome = true ∧
    exRunOut.blockstore_msgs = exRunOut.bulk.toList ++ [exRunO] ∧
    exRunOut.socket_msgs = exRunOut.bulk.toList ++ [exRunO, exRunP] :=
  run_recorder_message_order exRunKp exRunSt exRunRr exRunOut exRunO exRunP
    rfl rfl


/-- C1 (code behavior at the failing input): the two terminal shreds of a
forked slot share slot and index and are independently signed, but BOTH
carry `last_in_slot() = true` — the partition variant too, because `run`
passes `true` for its `is_last_in_slot` despite the comment saying it
must not be marked last. -/
theorem run_fork_partition_terminal_marked_last : c1Check = true := by decide

/-- Counterexample for C2 as stated: at a concrete forking input the
partition terminal batch is sent on the socket channel but never reaches
the recorder (blockstore) channel, so `run` does not send every produced
batch to the recorder. -/
theorem run_partition_batch_not_recorded :
    exRunP ∈ exRunOut.socket_msgs ∧ exRunP ∉ exRunOut.blockstore_msgs := by
  have hs : exRunOut.socket_msgs = [exRunBulk, exRunO, exRunP] := rfl
  have hb : exRunOut.blockstore_msgs = [exRunBulk, exRunO] := rfl
  have hidxP : exRunP.map Shred.index = [1] := by decide
  have hidxB : exRunBulk.map Shred.index = [0] := by decide
  have hszP : exRunP.map dataHeaderSize = [224] := by decide
  have hszO : exRunO.map dataHeaderSize = [144] := by decide
  constructor
  · rw [hs]
    simp
  · rw [hb]
    intro hmem
    rcases List.mem_cons.mp hmem with h | h
    · have : ([0] : List Nat) = [1] := by rw [← hidxB, ← h, hidxP]
      exact absurd this (by decide)
    · rcases List.mem_cons.mp h with h2 | h2
      · have : ([144] : List Nat) = [224] := by rw [← hszO, ← h2, hszP]
        exact absurd this (by decide)
      · exact absurd h2 (List.not_mem_nil _)

/-- Witness for C9: with the feature not activated, the seed input of a
concrete shred hashes only slot, index, and the leader key. -/
theorem seed_type_tag_epoch_gate_witness :
    Shred.seedInput (.ShredCode exCodeShred) 5 exBankOff =
      [leBytes 8 (Shred.slot (.ShredCode exCodeShred)),
       leBytes 4 (Shred.index (.ShredCode exCodeShred)), pubkeyBytes 5] :=
  (seed_type_tag_epoch_gate (.ShredCode exCodeShred) 5 exBankOff).2 (Or.inl rfl)
